import Mathlib

/-!
# adsys authorizer: polkit gate and process start-time parser

Shallow embedding of `internal/authorizer/authorizer.go`.

* A Go `string` / `[]byte` holding file contents is a list of bytes; each byte is held
  as a `Char` (`Bytes`).  Every byte string is such a list, and the theorems below
  quantify over all lists.
* Go `error` values are modelled by their message: `none` is `nil`, `some msg` is a
  non-nil error whose `Error()` is `msg`.
* `gotext.Get` is modelled with no translation catalogue loaded: it returns its format
  string with the arguments substituted.
* Machine integers are `Nat` / `Int`; where Go arithmetic can wrap, the wrap is explicit.
* Code that can hit a Go runtime panic (slice / index out of range) returns `Exec.panic`.
* The effects of `isAllowed` that matter for the gate (opening the stat file, calling the
  authority) are recorded in an event trace returned next to the result.  Debug logging
  and the deferred `Close` of the stat file are not modelled.
-/

namespace Adsys

/-- Byte string: contents of a Go `string` or `[]byte`, one `Char` per byte. -/
abbrev Bytes := List Char

/-- Outcome of Go code that can panic at run time. -/
inductive Exec (α : Type) where
  | panic : Exec α
  | done : α → Exec α
  deriving DecidableEq

/-! ## Library functions used by the parser -/

/-- Helper of `strings.IndexByte`: scan from position `i`. Returns `-1` when `c` is absent. -/
def indexByteFrom (c : Char) : Bytes → Int → Int
  | [], _ => -1
  | b :: bs, i => if b = c then i else indexByteFrom c bs (i + 1)

/-- Go `strings.IndexByte(s, c)`: index of the first instance of `c` in `s`, or `-1`. -/
def indexByte (s : Bytes) (c : Char) : Int := indexByteFrom c s 0

/-- Go slice expression `s[i:]`: panics (`none`) unless `0 ≤ i ≤ len(s)`. -/
def sliceFrom (s : Bytes) (i : Int) : Option Bytes :=
  if 0 ≤ i ∧ i ≤ (s.length : Int) then some (s.drop i.toNat) else none

/-- Go `strings.Split(s, sep)` for a one-byte separator: the substrings between the
separators; `n` separators give `n + 1` substrings, the empty string gives `[""]`. -/
def stringsSplit (sep : Char) : Bytes → List Bytes
  | [] => [[]]
  | c :: cs =>
    if c = sep then [] :: stringsSplit sep cs
    else
      match stringsSplit sep cs with
      | [] => [[c]]
      | t :: ts => (c :: t) :: ts

/-- Go index expression `xs[i]`: panics (`none`) when `i` is out of range. -/
def indexAt {α : Type} (xs : List α) (i : Nat) : Option α := xs[i]?

/-- The two sentinel errors of package `strconv`. -/
inductive NumErrKind where
  | ErrSyntax
  | ErrRange
  deriving DecidableEq

/-- Message of a `strconv` sentinel error. -/
def NumErrKind.text : NumErrKind → String
  | .ErrSyntax => "invalid syntax"
  | .ErrRange => "value out of range"

/-- Go `*strconv.NumError`. -/
structure NumError where
  Func : String
  Num : Bytes
  Err : NumErrKind
  deriving DecidableEq

/-- Largest `uint64`. -/
def maxUint64 : Nat := 2 ^ 64 - 1

/-- Cutoff of `strconv.ParseUint` for base 10: the smallest number such that
`cutoff * 10 > maxUint64`. -/
def cutoff10 : Nat := maxUint64 / 10 + 1

/-- Go `lower(c)` of package `strconv`: `c | ('x' - 'X')`. -/
def lowerByte (c : Nat) : Nat := c ||| 0x20

/-- Digit loop of `strconv.ParseUint(s, 10, 64)`; `n` is the accumulator, kept modulo `2^64`.
The result is the returned value and the error kind, if any. -/
def parseUintLoop : Bytes → Nat → Nat × Option NumErrKind
  | [], n => (n, none)
  | c :: cs, n =>
    if 48 ≤ c.toNat ∧ c.toNat ≤ 57 then
      let d := c.toNat - 48
      if d ≥ 10 then (0, some .ErrSyntax)
      else if n ≥ cutoff10 then (maxUint64, some .ErrRange)
      else
        let n10 := (n * 10) % 2 ^ 64
        let n1 := (n10 + d) % 2 ^ 64
        if n1 < n10 ∨ n1 > maxUint64 then (maxUint64, some .ErrRange)
        else parseUintLoop cs n1
    else if 97 ≤ lowerByte c.toNat ∧ lowerByte c.toNat ≤ 122 then
      let d := lowerByte c.toNat - 97 + 10
      if d ≥ 10 then (0, some .ErrSyntax)
      else (0, some .ErrSyntax)
    else (0, some .ErrSyntax)

/-- Go `strconv.ParseUint(s, 10, 64)`. -/
def parseUint (s : Bytes) : Nat × Option NumError :=
  match s with
  | [] => (0, some ⟨"ParseUint", s, .ErrSyntax⟩)
  | _ :: _ =>
    match parseUintLoop s 0 with
    | (v, some k) => (v, some ⟨"ParseUint", s, k⟩)
    | (v, none) => (v, none)

/-- Behaviour of the world outside the package. -/
structure Env where
  /-- Go `strconv.Quote`. -/
  quote : String → String
  /-- Go `filepath.Join` of two elements. -/
  join : String → String → String
  /-- Go `os.Open` followed by `io.ReadAll` on the file: `Except.error msg` when the open
  fails; otherwise the data read and the error of the read, if any. -/
  openFile : String → Except String (Bytes × Option String)

/-- Go `(*strconv.NumError).Error()`. -/
def NumError.Error (env : Env) (e : NumError) : String :=
  "strconv." ++ e.Func ++ ": parsing " ++ env.quote (String.mk e.Num) ++ ": " ++ e.Err.text

/-- Go `decorate.OnError(&err, msg)`: a non-nil error is wrapped as `msg: err`. -/
def decorateOnError (msg : String) : Option String → Option String
  | none => none
  | some e => some (msg ++ ": " ++ e)

/-! ## The start-time parser -/

/-- Body of `getStartTimeFromReader`, before the deferred `decorate.OnError` runs.
The reader is given by what `io.ReadAll` returns on it. -/
def getStartTimeBody (env : Env) (r : Bytes × Option String) : Exec (Nat × Option String) :=
  match r with
  | (_, some err) => .done (0, some err)
  | (data, none) =>
    let contents := data
    let idx := indexByte contents ')'
    if idx < 0 then .done (0, some "parsing error: missing )")
    else
      let idx := idx + 2
      if idx > (contents.length : Int) then .done (0, some "parsing error: ) at the end")
      else
        match sliceFrom contents idx with
        | none => .panic
        | some rest =>
          let tokens := stringsSplit ' ' rest
          if tokens.length < 20 then
            .done (0, some "parsing error: less fields than required")
          else
            match indexAt tokens 19 with
            | none => .panic
            | some tok =>
              match parseUint tok with
              | (_, some err) => .done (0, some ("parsing error: " ++ err.Error env))
              | (v, none) => .done (v, none)

/-- Go `getStartTimeFromReader`: the start time of a process from its stat record. -/
def getStartTimeFromReader (env : Env) (r : Bytes × Option String) :
    Exec (Nat × Option String) :=
  match getStartTimeBody env r with
  | .panic => .panic
  | .done (t, err) => .done (t, decorateOnError "can't determine start time of client process" err)

/-! ## The authorizer -/

/-- Go `Action`: a polkit action. -/
structure Action where
  ID : String
  SelfID : String
  OtherID : String
  deriving DecidableEq

/-- Go `ActionAlwaysAllowed`: a no-op bypassing any user or dbus checks. -/
def ActionAlwaysAllowed : Action := { ID := "always-allowed", SelfID := "", OtherID := "" }

/-- Go `checkAllowInteraction`. -/
def checkAllowInteraction : Nat := 0x01

/-- Go `dbus.FlagAllowInteractiveAuthorization` (`1 << 2` in godbus). -/
def dbusFlagAllowInteractiveAuthorization : Nat := 4

/-- Go `dbus.Variant`, for the value types the subject uses. -/
inductive Variant where
  | uint32 (v : Nat)
  | uint64 (v : Nat)
  deriving DecidableEq

/-- Go `authSubject`. -/
structure authSubject where
  Kind : String
  Details : List (String × Variant)
  deriving DecidableEq

/-- Go `authResult`. -/
structure authResult where
  IsAuthorized : Bool
  IsChallenge : Bool
  Details : List (String × String)
  deriving DecidableEq

/-- Arguments of one `a.authority.Call`. -/
structure CallArgs where
  method : String
  flags : Nat
  subject : authSubject
  actionID : String
  details : List (String × String)
  checkFlags : Nat
  cancellationID : String
  deriving DecidableEq

/-- What `Call(...).Store(&result)` leaves behind: the contents of `result` after the
store and the error returned (call error or store error). -/
structure Reply where
  result : authResult
  err : Option String
  deriving DecidableEq

/-- Go `user.User`, the field the package reads. -/
structure User where
  Uid : String
  deriving DecidableEq

/-- Go `Authorizer`. -/
structure Authorizer where
  authority : CallArgs → Reply
  userLookup : String → Except String User
  root : String

/-- Effects of `isAllowed` observable from outside. -/
inductive Event where
  | openStat (path : String)
  | authorityCall (args : CallArgs)
  deriving DecidableEq

/-- Go `fmt.Sprintf("proc/%d/stat", pid)`. -/
def procStatName (pid : Int) : String := "proc/" ++ toString pid ++ "/stat"

/-- Lines 161-166 of `isAllowed`: for an action with a non-empty `SelfID`, `ID` is set to
`OtherID` and then to `SelfID` when the target uid is the caller uid. -/
def resolveAction (action : Action) (uid actionUID : Nat) : Action :=
  if action.SelfID ≠ "" then
    let action1 := { action with ID := action.OtherID }
    if actionUID = uid then { action1 with ID := action1.SelfID } else action1
  else action

/-- Path opened by `isAllowed`: `filepath.Join(a.root, fmt.Sprintf("proc/%d/stat", pid))`. -/
def statPath (env : Env) (a : Authorizer) (pid : Int) : String :=
  env.join a.root (procStatName pid)

/-- Lines 179-192 of `isAllowed`: the polkit subject of the calling process. -/
def mkSubject (pid : Int) (startTime uid : Nat) : authSubject :=
  let upid : Nat := if pid > 0 then pid.toNat else 0
  { Kind := "unix-process",
    Details := [("pid", .uint32 upid), ("start-time", .uint64 startTime), ("uid", .uint32 uid)] }

/-- Lines 196-198 of `isAllowed`: the arguments of the authority call. -/
def mkCallArgs (subject : authSubject) (actionID : String) : CallArgs :=
  { method := "org.freedesktop.PolicyKit1.Authority.CheckAuthorization",
    flags := dbusFlagAllowInteractiveAuthorization,
    subject := subject, actionID := actionID, details := [],
    checkFlags := checkAllowInteraction, cancellationID := "" }

/-- Go `Authorizer.isAllowed`: the event trace and the returned error. -/
def isAllowed (env : Env) (a : Authorizer) (action : Action) (pid : Int) (uid actionUID : Nat) :
    List Event × Exec (Option String) :=
  if uid = 0 then ([], .done none)
  else if action = ActionAlwaysAllowed then ([], .done none)
  else
    let action := resolveAction action uid actionUID
    let path := statPath env a pid
    match env.openFile path with
    | .error e => ([.openStat path], .done (some ("couldn't open stat file for process: " ++ e)))
    | .ok f =>
      match getStartTimeFromReader env f with
      | .panic => ([.openStat path], .panic)
      | .done (_, some err) => ([.openStat path], .done (some err))
      | .done (startTime, none) =>
        let subject := mkSubject pid startTime uid
        let args := mkCallArgs subject action.ID
        let reply := a.authority args
        match reply.err with
        | some e =>
          ([.openStat path, .authorityCall args], .done (some ("call to polkit failed: " ++ e)))
        | none =>
          if !reply.result.IsAuthorized then
            ([.openStat path, .authorityCall args], .done (some "polkit denied access"))
          else ([.openStat path, .authorityCall args], .done none)

/-! ## Vocabulary of the statements -/

/-- The authority calls of a trace, in order. -/
def authorityCalls : List Event → List CallArgs
  | [] => []
  | .authorityCall args :: es => args :: authorityCalls es
  | .openStat _ :: es => authorityCalls es

/-- An ASCII decimal digit. -/
def isDigitByte (c : Char) : Prop := 48 ≤ c.toNat ∧ c.toNat ≤ 57

instance (c : Char) : Decidable (isDigitByte c) := by
  unfold isDigitByte; infer_instance

/-- Value of a string of decimal digits read from position `acc`. -/
def decimalValueFrom (acc : Nat) (s : Bytes) : Nat :=
  s.foldl (fun a c => a * 10 + (c.toNat - 48)) acc

/-- Value of a string of decimal digits. -/
def decimalValue (s : Bytes) : Nat := decimalValueFrom 0 s

/-- A token that is a non-negative decimal integer fitting in 64 bits: non-empty, ASCII
digits only, value below `2^64`. -/
def validUint64 (tok : Bytes) : Prop :=
  tok ≠ [] ∧ (∀ c ∈ tok, isDigitByte c) ∧ decimalValue tok < 2 ^ 64

instance (tok : Bytes) : Decidable (validUint64 tok) := by
  unfold validUint64; infer_instance

/-- Plain decimal representation of a number. -/
def decimalRepr (n : Nat) : Bytes := (Nat.repr n).toList

/-- A stat record `pid (comm) f3 f4 ...`: the fields after `comm` are joined by single
spaces. -/
def statRecord (pid comm : Bytes) (fields : List Bytes) : Bytes :=
  pid ++ [' ', '('] ++ comm ++ [')', ' '] ++ [' '].intercalate fields

/-- Helper of `strings.LastIndexByte`: the last position of `c` at or after `i`, given the
best position `best` found so far. -/
def lastIndexByteFrom (c : Char) : Bytes → Int → Int → Int
  | [], _, best => best
  | b :: bs, i, best => lastIndexByteFrom c bs (i + 1) (if b = c then i else best)

/-- Go `strings.LastIndexByte(s, c)`: index of the last instance of `c` in `s`, or `-1`. -/
def lastIndexByte (s : Bytes) (c : Char) : Int := lastIndexByteFrom c s 0 (-1)

/-- The start time as the comment of `getStartTimeFromReader` and polkit describe it: the
token at index 19 after the `) ` located by searching backwards for the last `)`. -/
def startTimeSearchingBackwards (contents : Bytes) : Option Nat :=
  let idx := lastIndexByte contents ')'
  if idx < 0 then none
  else
    match sliceFrom contents (idx + 2) with
    | none => none
    | some rest =>
      match indexAt (stringsSplit ' ' rest) 19 with
      | none => none
      | some tok =>
        match parseUint tok with
        | (_, some _) => none
        | (v, none) => some v

/-! ## Concrete inputs -/

/-- An environment with no stat file at all. -/
def envNoFiles : Env :=
  { quote := fun s => s, join := fun a b => a ++ b, openFile := fun _ => .error "no such file" }

/-- The stat record of process 42 named `bash`, started at tick 123456. -/
def recordBash : Bytes :=
  "42 (bash) S 1 42 42 34816 42 4194304 100 0 0 0 1 2 0 0 20 0 1 0 123456 1000 200\n".toList

/-- The fields after the name in a stat record, from `state` on: `itrealvalue` (index 18)
is 0 and `starttime` (index 19) is 777. -/
def recordFields : List Bytes :=
  ["S".toList, "1".toList, "42".toList, "42".toList, "34816".toList, "42".toList,
   "4194304".toList, "100".toList, "0".toList, "0".toList, "0".toList, "1".toList,
   "2".toList, "0".toList, "0".toList, "20".toList, "0".toList, "1".toList, "0".toList,
   "777".toList, "1000".toList, "200\n".toList]

/-- An environment where every stat file holds `recordBash`. -/
def envBash : Env :=
  { quote := fun s => s, join := fun a b => a ++ b, openFile := fun _ => .ok (recordBash, none) }

/-- An authority that authorizes every request. -/
def authorityYes : CallArgs → Reply :=
  fun _ => { result := { IsAuthorized := true, IsChallenge := false, Details := [] }, err := none }

/-- An authority that denies every request, offering a challenge. -/
def authorityNo : CallArgs → Reply :=
  fun _ => { result := { IsAuthorized := false, IsChallenge := true, Details := [] }, err := none }

/-- An authority that cannot be reached; the reply struct is left partially filled. -/
def authorityDown : CallArgs → Reply :=
  fun _ => { result := { IsAuthorized := true, IsChallenge := false, Details := [] },
             err := some "dbus: connection closed by user" }

/-- An authorizer over the given authority, rooted at `/`. -/
def authorizerOf (authority : CallArgs → Reply) : Authorizer :=
  { authority := authority, userLookup := fun _ => .error "unknown user", root := "/" }

/-- The self/other action of the example. -/
def actionRead : Action := { ID := "", SelfID := "self.read", OtherID := "other.read" }

/-- A plain action. -/
def actionPlain : Action := { ID := "com.ubuntu.adsys.service.manage", SelfID := "", OtherID := "" }

/-! ## The public entry point -/

/-- Modelled from the spec: `peerCredsInfo`, the peer credentials
`{processID: signed 32-bit, userID: unsigned 32-bit}` that the transport attaches to a
request. Its declaration is in a file of the package that is not part of the sources at
hand; `IsAllowedFromContext` reads its fields `pid` and `uid`. -/
structure peerCredsInfo where
  uid : Nat
  pid : Int
  deriving DecidableEq

/-- Go `p.AuthInfo` of a gRPC peer: a `peerCredsInfo`, or a value of any other type (nil
included), on which the type assertion `p.AuthInfo.(peerCredsInfo)` fails. -/
inductive AuthInfo where
  | creds (pci : peerCredsInfo)
  | other
  deriving DecidableEq

/-- Go `context.Context`, as far as `IsAllowedFromContext` reads it. -/
structure Context where
  /-- Go `peer.FromContext(ctx)`: the `AuthInfo` of the peer, when the context has a peer. -/
  peer : Option AuthInfo
  /-- Go `ctx.Value(OnUserKey).(string)`: the value under the key `"UserName"` when it is
  present and is a string. -/
  userName : Option String
  deriving DecidableEq

/-- Go `OnUserKey`: the authorizer context key passing optional user name. -/
def OnUserKey : String := "UserName"

/-- Go `strconv.IntSize`: the size in bits of an `int`, fixed by the platform. -/
inductive WordSize where
  | w32
  | w64
  deriving DecidableEq

/-- Number of bits of a word size. -/
def WordSize.bits : WordSize → Nat
  | .w32 => 32
  | .w64 => 64

/-- Go `math.MaxUint32`. -/
def maxUint32 : Nat := 2 ^ 32 - 1

/-- Digit loop of `strconv.ParseUint(s, 10, bitSize)` for the largest value `maxVal` of the
bit size; `n` is the `uint64` accumulator. -/
def parseUintLoopBits (maxVal : Nat) : Bytes → Nat → Nat × Option NumErrKind
  | [], n => (n, none)
  | c :: cs, n =>
    if 48 ≤ c.toNat ∧ c.toNat ≤ 57 then
      let d := c.toNat - 48
      if d ≥ 10 then (0, some .ErrSyntax)
      else if n ≥ cutoff10 then (maxVal, some .ErrRange)
      else
        let n10 := (n * 10) % 2 ^ 64
        let n1 := (n10 + d) % 2 ^ 64
        if n1 < n10 ∨ n1 > maxVal then (maxVal, some .ErrRange)
        else parseUintLoopBits maxVal cs n1
    else if 97 ≤ lowerByte c.toNat ∧ lowerByte c.toNat ≤ 122 then
      let d := lowerByte c.toNat - 97 + 10
      if d ≥ 10 then (0, some .ErrSyntax)
      else (0, some .ErrSyntax)
    else (0, some .ErrSyntax)

/-- Go `strconv.ParseUint(s, 10, 0)`: bit size 0 stands for `strconv.IntSize`. -/
def parseUintIntSize (w : WordSize) (s : Bytes) : Nat × Option NumError :=
  match s with
  | [] => (0, some ⟨"ParseUint", s, .ErrSyntax⟩)
  | _ :: _ =>
    match parseUintLoopBits (2 ^ w.bits - 1) s 0 with
    | (v, some k) => (v, some ⟨"ParseUint", s, k⟩)
    | (v, none) => (v, none)

/-- Effects of `IsAllowedFromContext` observable from outside: the user lookup and the
effects of `isAllowed`. -/
inductive CtxEvent where
  | userLookup (name : String)
  | gate (e : Event)
  deriving DecidableEq

/-- Body of `IsAllowedFromContext`, before the deferred `decorate.OnError` runs. -/
def IsAllowedFromContextBody (w : WordSize) (env : Env) (a : Authorizer) (ctx : Context)
    (action : Action) : List CtxEvent × Exec (Option String) :=
  match ctx.peer with
  | none =>
    ([], .done (some "context request doesn't have grpc peer creds informations."))
  | some .other =>
    ([], .done (some "context request grpc peer creeds information is not a peerCredsInfo."))
  | some (.creds pci) =>
    if action.SelfID ≠ "" then
      match ctx.userName with
      | none =>
        ([], .done (some "request to act on user action should have a user name attached"))
      | some userName =>
        match a.userLookup userName with
        | .error err =>
          ([.userLookup userName],
            .done (some ("couldn't retrieve user for " ++ env.quote userName ++ ": " ++ err)))
        | .ok user =>
          match parseUintIntSize w user.Uid.toList with
          | (_, some _) =>
            ([.userLookup userName],
              .done (some ("couldn't convert " ++ env.quote user.Uid ++ " to a valid uid for "
                ++ env.quote userName)))
          | (uid, none) =>
            if uid > maxUint32 then
              ([.userLookup userName],
                .done (some ("uid value " ++ toString uid
                  ++ " is too large to convert to an uint32")))
            else
              let actionUID := uid % 2 ^ 32
              (.userLookup userName ::
                  (isAllowed env a action pci.pid pci.uid actionUID).1.map .gate,
                (isAllowed env a action pci.pid pci.uid actionUID).2)
    else
      ((isAllowed env a action pci.pid pci.uid 0).1.map .gate,
        (isAllowed env a action pci.pid pci.uid 0).2)

/-- Go `Authorizer.IsAllowedFromContext`: the event trace and the returned error. -/
def IsAllowedFromContext (w : WordSize) (env : Env) (a : Authorizer) (ctx : Context)
    (action : Action) : List CtxEvent × Exec (Option String) :=
  ((IsAllowedFromContextBody w env a ctx action).1,
    match (IsAllowedFromContextBody w env a ctx action).2 with
    | .panic => .panic
    | .done err => .done (decorateOnError "permission denied" err))

/-- Go `withAuthority`. -/
def withAuthority (c : CallArgs → Reply) : Authorizer → Authorizer :=
  fun a => { a with authority := c }

/-- Go `withUserLookup`. -/
def withUserLookup (userLookup : String → Except String User) : Authorizer → Authorizer :=
  fun a => { a with userLookup := userLookup }

/-- Go `withRoot`. -/
def withRoot (root : String) : Authorizer → Authorizer :=
  fun a => { a with root := root }

/-- Go `New`: `busAuthority` is the polkit object of the bus, `osUserLookup` is
`user.Lookup`; the options are applied in order. -/
def New (busAuthority : CallArgs → Reply) (osUserLookup : String → Except String User)
    (options : List (Authorizer → Authorizer)) : Authorizer :=
  options.foldl (fun a option => option a)
    { authority := busAuthority, root := "/", userLookup := osUserLookup }

/-! ## The refresh timer of the service -/

/-- Value of a dbus property as `nextRefreshTime` reads it: a `uint64`, or a value of
another type, given by its `%v` rendering. -/
inductive PropValue where
  | uint64 (v : Nat)
  | other (shown : String)
  deriving DecidableEq

/-- Go `math.MaxInt64`. -/
def maxInt64 : Nat := 2 ^ 63 - 1

/-- Go `time.Time`, by the instant it holds: the seconds since January 1 of year 1, an
`int64`, and the nanoseconds within the second, from 0 to 999999999. The monotonic clock
reading and the location are left out: `Add` moves the instant in the same way with or
without them. -/
structure Time where
  sec : Int
  nsec : Int
  deriving DecidableEq

/-- Two's complement wrap of an integer to an `int64`. -/
def wrapInt64 (x : Int) : Int := (x + 2 ^ 63) % 2 ^ 64 - 2 ^ 63

/-- Go `(*Time).addSec`: adds `d` seconds to the seconds of a time; when the `int64` sum
overflows, the result is the end of the time line on the side of `d`. -/
def addSec (sec d : Int) : Int :=
  let sum := wrapInt64 (sec + d)
  if (sum > sec ↔ d > 0) then sum
  else if d > 0 then 2 ^ 63 - 1
  else -(2 ^ 63 - 1)

/-- Go `Time.Add(d)` for a duration of `d` nanoseconds: the duration is cut in seconds and
nanoseconds (division truncated toward zero), the nanoseconds are added with a carry, and
the seconds are added by `addSec`. -/
def timeAdd (t : Time) (d : Int) : Time :=
  let dsec := Int.tdiv d 1000000000
  let nsec := t.nsec + Int.tmod d 1000000000
  if nsec ≥ 1000000000 then { sec := addSec t.sec (dsec + 1), nsec := nsec - 1000000000 }
  else if nsec < 0 then { sec := addSec t.sec (dsec - 1), nsec := nsec + 1000000000 }
  else { sec := addSec t.sec dsec, nsec := nsec }

/-- Body of `Service.nextRefreshTime`, before the deferred `decorate.OnError` runs.
`initSystemTime` is `none` for a nil pointer; `prop` is what
`timerUnit.GetProperty("...NextElapseUSecMonotonic")` returns. -/
def nextRefreshTimeBody (initSystemTime : Option Time) (prop : Except String PropValue) :
    Option Time × Option String :=
  match initSystemTime with
  | none => (none, some "no boot system time found")
  | some start =>
    match prop with
    | .error err =>
      (none, some ("could not find " ++ "adsys-gpo-refresh.timer"
        ++ " unit on systemd bus: no GPO refresh scheduled? " ++ err))
    | .ok (.other shown) =>
      (none, some ("invalid next GPO refresh value for " ++ shown ++ ": " ++ "<nil>"))
    | .ok (.uint64 v) =>
      let nextRaw := v
      let nextRaw := (nextRaw * 1000) % 2 ^ 64
      if nextRaw > maxInt64 then
        (none, some ("next refresh time should be int64: " ++ toString nextRaw))
      else
        let nextRefresh := timeAdd start (nextRaw : Int)
        (some nextRefresh, none)

/-- Go `Service.nextRefreshTime`: the next refresh time and the error. -/
def nextRefreshTime (initSystemTime : Option Time) (prop : Except String PropValue) :
    Option Time × Option String :=
  ((nextRefreshTimeBody initSystemTime prop).1,
    decorateOnError "error while trying to determine next refresh time"
      (nextRefreshTimeBody initSystemTime prop).2)

/-- The boot time of the example: second 63900000000 of the time line (year 2025), 5
nanoseconds into the second. -/
def bootTime : Time := { sec := 63900000000, nsec := 5 }

/-! ## Vocabulary of the later statements -/

/-- A token that is a non-negative decimal integer fitting in 32 bits: non-empty, ASCII
digits only, value at most `2^32 - 1`. -/
def validUint32 (tok : Bytes) : Prop :=
  tok ≠ [] ∧ (∀ c ∈ tok, isDigitByte c) ∧ decimalValue tok ≤ 2 ^ 32 - 1

instance (tok : Bytes) : Decidable (validUint32 tok) := by
  unfold validUint32; infer_instance

/-- Reference definition of the parser: the record must hold a `)`; with `i` the index of
the first one, `i + 2` must not exceed the length; the bytes from `i + 2` on are split on
every space into the list `T`; `T` must have at least 20 elements and `T[19]` must be a
non-empty string of digits with a value below `2^64`, which is the result. -/
def startTimeReference (s : Bytes) : Option Nat :=
  if ')' ∈ s then
    let i := List.indexOf ')' s
    if i + 2 ≤ s.length then
      let T := List.splitOn ' ' (s.drop (i + 2))
      if 20 ≤ T.length ∧ validUint64 (T.getD 19 []) then some (decimalValue (T.getD 19 []))
      else none
    else none
  else none

/-- The messages of the causes for which `isAllowed` fails. -/
def gateCause (cause : String) : Prop :=
  (∃ e, cause = "couldn't open stat file for process: " ++ e) ∨
  (∃ e, cause = "can't determine start time of client process: " ++ e) ∨
  (∃ e, cause = "call to polkit failed: " ++ e) ∨
  cause = "polkit denied access"

/-- The messages of the causes for which `IsAllowedFromContext` fails: those of its own
steps and those of `isAllowed`. -/
def checkCause (env : Env) (cause : String) : Prop :=
  cause = "context request doesn't have grpc peer creds informations." ∨
  cause = "context request grpc peer creeds information is not a peerCredsInfo." ∨
  cause = "request to act on user action should have a user name attached" ∨
  (∃ name e, cause = "couldn't retrieve user for " ++ env.quote name ++ ": " ++ e) ∨
  (∃ uid name, cause = "couldn't convert " ++ env.quote uid ++ " to a valid uid for "
    ++ env.quote name) ∨
  (∃ v : Nat, cause = "uid value " ++ toString v ++ " is too large to convert to an uint32") ∨
  gateCause cause

/-- A context with the credentials of process 42 of user 1000 and no user name. -/
def ctxAnonymous : Context :=
  { peer := some (.creds { uid := 1000, pid := 42 }), userName := none }

/-- A context with the credentials of process 42 of user 1000, acting on user `alice`. -/
def ctxOnAlice : Context :=
  { peer := some (.creds { uid := 1000, pid := 42 }), userName := some "alice" }

/-- A context with the credentials of process 1 of the administrator and no user name. -/
def ctxRootAnonymous : Context :=
  { peer := some (.creds { uid := 0, pid := 1 }), userName := none }

/-- A context with the credentials of process 1 of the administrator, acting on `alice`. -/
def ctxRootOnAlice : Context :=
  { peer := some (.creds { uid := 0, pid := 1 }), userName := some "alice" }

/-- A user database that knows `alice` only, with the given `Uid` string. -/
def lookupAlice (uid : String) : String → Except String User :=
  fun name => if name = "alice" then .ok { Uid := uid } else .error "user: unknown user"

/-- An authorizer over an authority that says yes, with `alice` in the user database. -/
def authorizerAlice (uid : String) : Authorizer :=
  { authority := authorityYes, userLookup := lookupAlice uid, root := "/" }

/-- An action with a `SelfID`, no `OtherID` and a pre-populated `ID`. -/
def actionSelfOnly : Action := { ID := "stale.id", SelfID := "self.read", OtherID := "" }

/-- A context with the credentials of process 42 of user 1000, acting on user `bob`. -/
def ctxOnBob : Context :=
  { peer := some (.creds { uid := 1000, pid := 42 }), userName := some "bob" }

/-! ## The gate: fast paths -/

/-- C1: for every action, pid, filesystem and authority, `isAllowed` with caller uid 0
returns nil with an empty trace: no stat file is opened and the authority is not called,
so the result depends on neither. -/
theorem isAllowed_uid_zero (env : Env) (a : Authorizer) (action : Action) (pid : Int)
    (actionUID : Nat) :
    isAllowed env a action pid 0 actionUID = ([], .done none) := by
  simp [isAllowed]

/-- C2: for every non-zero caller uid, pid, filesystem and authority, `isAllowed` with the
`ActionAlwaysAllowed` sentinel returns nil with an empty trace: no stat file is read and no
authority call is made. -/
theorem isAllowed_always_allowed (env : Env) (a : Authorizer) (pid : Int) (uid actionUID : Nat)
    (huid : uid ≠ 0) :
    isAllowed env a ActionAlwaysAllowed pid uid actionUID = ([], .done none) := by
  simp [isAllowed, huid]

/-- Witness of C2: uid 1000, no stat file, unreachable authority. -/
theorem isAllowed_always_allowed_witness :
    (1000 : Nat) ≠ 0 ∧
      isAllowed envNoFiles (authorizerOf authorityDown) ActionAlwaysAllowed 42 1000 0
        = ([], .done none) :=
  ⟨by decide, isAllowed_always_allowed envNoFiles (authorizerOf authorityDown) 42 1000 0
    (by decide)⟩

/-! ## The gate: the authority path -/

/-- Shape of a run of `isAllowed` past the fast paths: it stops at the open, at the parse,
or it makes exactly one authority call and decides on the reply. -/
theorem isAllowed_slow_path (env : Env) (a : Authorizer) (action : Action) (pid : Int)
    (uid actionUID : Nat) (huid : uid ≠ 0) (hact : action ≠ ActionAlwaysAllowed) :
    (∃ e, env.openFile (statPath env a pid) = .error e ∧
        isAllowed env a action pid uid actionUID =
          ([.openStat (statPath env a pid)],
            .done (some ("couldn't open stat file for process: " ++ e)))) ∨
    (∃ f, env.openFile (statPath env a pid) = .ok f ∧
        getStartTimeFromReader env f = .panic ∧
        isAllowed env a action pid uid actionUID = ([.openStat (statPath env a pid)], .panic)) ∨
    (∃ f t err, env.openFile (statPath env a pid) = .ok f ∧
        getStartTimeFromReader env f = .done (t, some err) ∧
        isAllowed env a action pid uid actionUID =
          ([.openStat (statPath env a pid)], .done (some err))) ∨
    (∃ f startTime, env.openFile (statPath env a pid) = .ok f ∧
        getStartTimeFromReader env f = .done (startTime, none) ∧
        isAllowed env a action pid uid actionUID =
          ([.openStat (statPath env a pid),
            .authorityCall (mkCallArgs (mkSubject pid startTime uid)
              (resolveAction action uid actionUID).ID)],
           match (a.authority (mkCallArgs (mkSubject pid startTime uid)
              (resolveAction action uid actionUID).ID)).err with
           | some e => .done (some ("call to polkit failed: " ++ e))
           | none =>
             if (a.authority (mkCallArgs (mkSubject pid startTime uid)
                  (resolveAction action uid actionUID).ID)).result.IsAuthorized
             then .done none else .done (some "polkit denied access"))) := by
  unfold isAllowed
  simp only [huid, hact, if_false]
  cases hopen : env.openFile (statPath env a pid) with
  | error e => exact Or.inl ⟨e, rfl, rfl⟩
  | ok f =>
    cases hparse : getStartTimeFromReader env f with
    | panic => exact Or.inr (Or.inl ⟨f, rfl, hparse, by simp only [hparse]⟩)
    | done res =>
      obtain ⟨t, err⟩ := res
      cases err with
      | some err =>
        exact Or.inr (Or.inr (Or.inl ⟨f, t, err, rfl, hparse, by simp only [hparse]⟩))
      | none =>
        refine Or.inr (Or.inr (Or.inr ⟨f, t, rfl, hparse, ?_⟩))
        simp only [hparse]
        cases herr : (a.authority (mkCallArgs (mkSubject pid t uid)
            (resolveAction action uid actionUID).ID)).err with
        | some e => simp only [herr]
        | none =>
          cases hauth : (a.authority (mkCallArgs (mkSubject pid t uid)
            (resolveAction action uid actionUID).ID)).result.IsAuthorized <;>
            simp [herr, hauth]

/-- Every authority call in a trace of `isAllowed` carries the resolved action id, and the
returned error is decided by the reply to that call. -/
theorem isAllowed_call_inv (env : Env) (a : Authorizer) (action : Action) (pid : Int)
    (uid actionUID : Nat) (args : CallArgs)
    (hcall : args ∈ authorityCalls (isAllowed env a action pid uid actionUID).1) :
    uid ≠ 0 ∧ action ≠ ActionAlwaysAllowed ∧
    args.actionID = (resolveAction action uid actionUID).ID ∧
    (isAllowed env a action pid uid actionUID).2 =
      (match (a.authority args).err with
       | some e => .done (some ("call to polkit failed: " ++ e))
       | none =>
         if (a.authority args).result.IsAuthorized then .done none
         else .done (some "polkit denied access")) := by
  by_cases huid : uid = 0
  · subst huid
    rw [isAllowed_uid_zero] at hcall
    simp [authorityCalls] at hcall
  by_cases hact : action = ActionAlwaysAllowed
  · subst hact
    rw [isAllowed_always_allowed env a pid uid actionUID huid] at hcall
    simp [authorityCalls] at hcall
  refine ⟨huid, hact, ?_⟩
  rcases isAllowed_slow_path env a action pid uid actionUID huid hact with
    ⟨e, _, h⟩ | ⟨f, _, _, h⟩ | ⟨f, t, err, _, _, h⟩ | ⟨f, t, _, _, h⟩
  · rw [h] at hcall; simp [authorityCalls] at hcall
  · rw [h] at hcall; simp [authorityCalls] at hcall
  · rw [h] at hcall; simp [authorityCalls] at hcall
  · rw [h] at hcall ⊢
    simp only [authorityCalls, List.mem_singleton] at hcall
    subst hcall
    exact ⟨rfl, rfl⟩

/-- C3: when `isAllowed` (non-zero caller uid) makes an authority call, the action id sent
is `SelfID` if the target uid equals the caller uid and `OtherID` otherwise, for every action
with non-empty `SelfID` and `OtherID`; for an action with empty `SelfID` it is the action's
`ID` unchanged. -/
theorem isAllowed_sends_resolved_id (env : Env) (a : Authorizer) (action : Action) (pid : Int)
    (uid actionUID : Nat) (huid : uid ≠ 0) (args : CallArgs)
    (hcall : args ∈ authorityCalls (isAllowed env a action pid uid actionUID).1) :
    (action.SelfID ≠ "" → action.OtherID ≠ "" →
      args.actionID = if actionUID = uid then action.SelfID else action.OtherID) ∧
    (action.SelfID = "" → args.actionID = action.ID) := by
  have _ := huid
  obtain ⟨_, _, hid, _⟩ := isAllowed_call_inv env a action pid uid actionUID args hcall
  rw [hid]
  constructor
  · intro hself _
    unfold resolveAction
    by_cases h : actionUID = uid <;> simp [hself, h]
  · intro hself
    simp [resolveAction, hself]

/-- Witness of C3: the example of the specification. Caller 1000 acting on target 1000 sends
`self.read`; acting on target 1001 it sends `other.read`. -/
theorem isAllowed_sends_resolved_id_witness :
    (mkCallArgs (mkSubject 42 123456 1000) "self.read").actionID = "self.read" ∧
    (mkCallArgs (mkSubject 42 123456 1000) "other.read").actionID = "other.read" ∧
    authorityCalls (isAllowed envBash (authorizerOf authorityYes) actionRead 42 1000 1000).1
      = [mkCallArgs (mkSubject 42 123456 1000) "self.read"] ∧
    authorityCalls (isAllowed envBash (authorizerOf authorityYes) actionRead 42 1000 1001).1
      = [mkCallArgs (mkSubject 42 123456 1000) "other.read"] :=
  ⟨((isAllowed_sends_resolved_id envBash (authorizerOf authorityYes) actionRead 42 1000 1000
      (by decide) (mkCallArgs (mkSubject 42 123456 1000) "self.read") (by decide)).1
      (by decide) (by decide)),
   ((isAllowed_sends_resolved_id envBash (authorizerOf authorityYes) actionRead 42 1000 1001
      (by decide) (mkCallArgs (mkSubject 42 123456 1000) "other.read") (by decide)).1
      (by decide) (by decide)),
   by decide, by decide⟩

/-- A nil result of `isAllowed` past the fast paths, in the terms of the definitions: the
open and the parse succeeded and the one call built by `mkCallArgs` was answered without
error and with `IsAuthorized = true`; and conversely. -/
theorem isAllowed_nil_iff_call (env : Env) (a : Authorizer) (action : Action) (pid : Int)
    (uid actionUID : Nat) (huid : uid ≠ 0) (hact : action ≠ ActionAlwaysAllowed) :
    ((isAllowed env a action pid uid actionUID).2 = .done none →
      ∃ f startTime,
        env.openFile (statPath env a pid) = .ok f ∧
        getStartTimeFromReader env f = .done (startTime, none) ∧
        (isAllowed env a action pid uid actionUID).1 =
          [.openStat (statPath env a pid),
            .authorityCall (mkCallArgs (mkSubject pid startTime uid)
              (resolveAction action uid actionUID).ID)] ∧
        (a.authority (mkCallArgs (mkSubject pid startTime uid)
          (resolveAction action uid actionUID).ID)).err = none ∧
        (a.authority (mkCallArgs (mkSubject pid startTime uid)
          (resolveAction action uid actionUID).ID)).result.IsAuthorized = true) ∧
    (∀ f startTime,
        env.openFile (statPath env a pid) = .ok f →
        getStartTimeFromReader env f = .done (startTime, none) →
        (a.authority (mkCallArgs (mkSubject pid startTime uid)
          (resolveAction action uid actionUID).ID)).err = none →
        (a.authority (mkCallArgs (mkSubject pid startTime uid)
          (resolveAction action uid actionUID).ID)).result.IsAuthorized = true →
        isAllowed env a action pid uid actionUID =
          ([.openStat (statPath env a pid),
            .authorityCall (mkCallArgs (mkSubject pid startTime uid)
              (resolveAction action uid actionUID).ID)], .done none)) := by
  rcases isAllowed_slow_path env a action pid uid actionUID huid hact with
    ⟨e, ho, h⟩ | ⟨f, ho, hp, h⟩ | ⟨f, t, err, ho, hp, h⟩ | ⟨f, t, ho, hp, h⟩
  · refine ⟨fun hnil => ?_, fun f st hf => ?_⟩
    · rw [h] at hnil; simp at hnil
    · rw [ho] at hf; cases hf
  · refine ⟨fun hnil => ?_, fun f2 st hf hp2 => ?_⟩
    · rw [h] at hnil; simp at hnil
    · rw [ho] at hf; cases hf; rw [hp] at hp2; cases hp2
  · refine ⟨fun hnil => ?_, fun f2 st hf hp2 => ?_⟩
    · rw [h] at hnil; simp at hnil
    · rw [ho] at hf; cases hf; rw [hp] at hp2; cases hp2
  · refine ⟨fun hnil => ?_, fun f2 st hf hp2 herr hauth => ?_⟩
    · rw [h] at hnil ⊢
      refine ⟨f, t, ho, hp, rfl, ?_⟩
      cases herr : (a.authority (mkCallArgs (mkSubject pid t uid)
          (resolveAction action uid actionUID).ID)).err with
      | some e => simp [herr] at hnil
      | none =>
        cases hauth : (a.authority (mkCallArgs (mkSubject pid t uid)
          (resolveAction action uid actionUID).ID)).result.IsAuthorized with
        | false => simp [herr, hauth] at hnil
        | true => exact ⟨rfl, rfl⟩
    · rw [ho] at hf; cases hf; rw [hp] at hp2; cases hp2
      rw [h]; simp [herr, hauth]

/-- C4: soundness of the gate. For a non-zero caller uid and an action other than
`ActionAlwaysAllowed`: if `isAllowed` returns nil, then the stat record at the root joined
with `proc/<pid>/stat` was opened and parsed, and the trace is that open followed by exactly
one authority call: its subject is of kind `unix-process` with the details `pid` (the caller
pid when positive, else 0), `start-time` (the parsed start time) and `uid` (the caller uid),
its action id is `SelfID` or `OtherID` (by the comparison of target and caller uid) when
`SelfID` is not empty and `ID` otherwise; that call returned no error and its verdict has
`IsAuthorized = true`. Conversely, when the open and the parse succeed and the authority
answers that call without error and with `IsAuthorized = true`, `isAllowed` returns nil. -/
theorem isAllowed_nil_iff_authorized (env : Env) (a : Authorizer) (action : Action) (pid : Int)
    (uid actionUID : Nat) (huid : uid ≠ 0) (hact : action ≠ ActionAlwaysAllowed) :
    ((isAllowed env a action pid uid actionUID).2 = .done none →
      ∃ f startTime args,
        env.openFile (env.join a.root ("proc/" ++ toString pid ++ "/stat")) = .ok f ∧
        getStartTimeFromReader env f = .done (startTime, none) ∧
        args =
          { method := "org.freedesktop.PolicyKit1.Authority.CheckAuthorization",
            flags := dbusFlagAllowInteractiveAuthorization,
            subject :=
              { Kind := "unix-process",
                Details := [("pid", .uint32 (if pid > 0 then pid.toNat else 0)),
                  ("start-time", .uint64 startTime), ("uid", .uint32 uid)] },
            actionID :=
              if action.SelfID ≠ "" then
                (if actionUID = uid then action.SelfID else action.OtherID)
              else action.ID,
            details := [], checkFlags := 1, cancellationID := "" } ∧
        (isAllowed env a action pid uid actionUID).1 =
          [.openStat (env.join a.root ("proc/" ++ toString pid ++ "/stat")),
            .authorityCall args] ∧
        (a.authority args).err = none ∧
        (a.authority args).result.IsAuthorized = true) ∧
    (∀ f startTime args,
        env.openFile (env.join a.root ("proc/" ++ toString pid ++ "/stat")) = .ok f →
        getStartTimeFromReader env f = .done (startTime, none) →
        args =
          { method := "org.freedesktop.PolicyKit1.Authority.CheckAuthorization",
            flags := dbusFlagAllowInteractiveAuthorization,
            subject :=
              { Kind := "unix-process",
                Details := [("pid", .uint32 (if pid > 0 then pid.toNat else 0)),
                  ("start-time", .uint64 startTime), ("uid", .uint32 uid)] },
            actionID :=
              if action.SelfID ≠ "" then
                (if actionUID = uid then action.SelfID else action.OtherID)
              else action.ID,
            details := [], checkFlags := 1, cancellationID := "" } →
        (a.authority args).err = none →
        (a.authority args).result.IsAuthorized = true →
        isAllowed env a action pid uid actionUID =
          ([.openStat (env.join a.root ("proc/" ++ toString pid ++ "/stat")),
            .authorityCall args], .done none)) := by
  have hid : (resolveAction action uid actionUID).ID =
      if action.SelfID ≠ "" then (if actionUID = uid then action.SelfID else action.OtherID)
      else action.ID := by
    unfold resolveAction
    by_cases hself : action.SelfID = ""
    · simp [hself]
    · by_cases h : actionUID = uid <;> simp [hself, h]
  have hargs : ∀ st : Nat,
      mkCallArgs (mkSubject pid st uid) (resolveAction action uid actionUID).ID =
        { method := "org.freedesktop.PolicyKit1.Authority.CheckAuthorization",
          flags := dbusFlagAllowInteractiveAuthorization,
          subject :=
            { Kind := "unix-process",
              Details := [("pid", .uint32 (if pid > 0 then pid.toNat else 0)),
                ("start-time", .uint64 st), ("uid", .uint32 uid)] },
          actionID :=
            if action.SelfID ≠ "" then
              (if actionUID = uid then action.SelfID else action.OtherID)
            else action.ID,
          details := [], checkFlags := 1, cancellationID := "" } := by
    intro st
    rw [hid]
    rfl
  have hpath : statPath env a pid = env.join a.root ("proc/" ++ toString pid ++ "/stat") := rfl
  obtain ⟨hfwd, hbwd⟩ := isAllowed_nil_iff_call env a action pid uid actionUID huid hact
  rw [hpath] at hfwd hbwd
  constructor
  · intro hnil
    obtain ⟨f, st, ho, hp, htrace, herr, hauth⟩ := hfwd hnil
    exact ⟨f, st, mkCallArgs (mkSubject pid st uid) (resolveAction action uid actionUID).ID,
      ho, hp, hargs st, htrace, herr, hauth⟩
  · intro f st args ho hp hcall herr hauth
    rw [← hargs st] at hcall
    subst hcall
    exact hbwd f st ho hp herr hauth

/-- Witness of C4: process 42 of uid 1000 asking for the self/other action on itself, with
its stat record readable and an authority that says yes. Running `isAllowed` gives the open
of the stat file and one authority call for the subject (42, 123456, 1000) and the id
`self.read`, and the theorem gives the nil result for that call. -/
theorem isAllowed_nil_iff_authorized_witness :
    (1000 : Nat) ≠ 0 ∧ actionRead ≠ ActionAlwaysAllowed ∧
    (isAllowed envBash (authorizerOf authorityYes) actionRead 42 1000 1000).1 =
      [.openStat "/proc/42/stat",
        .authorityCall
          { method := "org.freedesktop.PolicyKit1.Authority.CheckAuthorization",
            flags := 4,
            subject :=
              { Kind := "unix-process",
                Details := [("pid", .uint32 42), ("start-time", .uint64 123456),
                  ("uid", .uint32 1000)] },
            actionID := "self.read",
            details := [], checkFlags := 1, cancellationID := "" }] ∧
    isAllowed envBash (authorizerOf authorityYes) actionRead 42 1000 1000 =
      ([.openStat "/proc/42/stat",
        .authorityCall
          { method := "org.freedesktop.PolicyKit1.Authority.CheckAuthorization",
            flags := 4,
            subject :=
              { Kind := "unix-process",
                Details := [("pid", .uint32 42), ("start-time", .uint64 123456),
                  ("uid", .uint32 1000)] },
            actionID := "self.read",
            details := [], checkFlags := 1, cancellationID := "" }],
       .done none) :=
  ⟨by decide, by decide, by decide,
   (isAllowed_nil_iff_authorized envBash (authorizerOf authorityYes) actionRead 42 1000 1000
      (by decide) (by decide)).2 (recordBash, none) 123456 _ rfl (by decide) rfl rfl rfl⟩

/-- C5: for a non-zero caller uid and a non-sentinel action, when the authority call that
`isAllowed` makes completes without error and with `IsAuthorized = false`, the result is the
non-nil error `polkit denied access`, whatever `IsChallenge` and `Details` of the verdict
are. -/
theorem isAllowed_denied (env : Env) (a : Authorizer) (action : Action) (pid : Int)
    (uid actionUID : Nat) (huid : uid ≠ 0) (hact : action ≠ ActionAlwaysAllowed)
    (args : CallArgs)
    (hcall : args ∈ authorityCalls (isAllowed env a action pid uid actionUID).1)
    (herr : (a.authority args).err = none)
    (hden : (a.authority args).result.IsAuthorized = false) :
    (isAllowed env a action pid uid actionUID).2 = .done (some "polkit denied access") := by
  have _ := huid
  have _ := hact
  obtain ⟨_, _, _, hres⟩ := isAllowed_call_inv env a action pid uid actionUID args hcall
  rw [hres]
  simp [herr, hden]

/-- Witness of C5: a denial that offers a challenge (`IsChallenge = true`) is an error. -/
theorem isAllowed_denied_witness :
    (authorityNo (mkCallArgs (mkSubject 42 123456 1000) "self.read")).result.IsChallenge = true ∧
    (isAllowed envBash (authorizerOf authorityNo) actionRead 42 1000 1000).2
      = .done (some "polkit denied access") :=
  ⟨rfl,
   isAllowed_denied envBash (authorizerOf authorityNo) actionRead 42 1000 1000
    (by decide) (by decide) (mkCallArgs (mkSubject 42 123456 1000) "self.read")
    (by decide) rfl rfl⟩

/-- C6: for a non-zero caller uid and a non-sentinel action, when the authority call that
`isAllowed` makes (or storing its reply) returns an error, the result is a non-nil error
carrying that error, whatever the verdict struct holds; a failure is never an allow. -/
theorem isAllowed_call_failed (env : Env) (a : Authorizer) (action : Action) (pid : Int)
    (uid actionUID : Nat) (huid : uid ≠ 0) (hact : action ≠ ActionAlwaysAllowed)
    (args : CallArgs) (e : String)
    (hcall : args ∈ authorityCalls (isAllowed env a action pid uid actionUID).1)
    (herr : (a.authority args).err = some e) :
    (isAllowed env a action pid uid actionUID).2
      = .done (some ("call to polkit failed: " ++ e)) ∧
    (isAllowed env a action pid uid actionUID).2 ≠ .done none := by
  have _ := huid
  have _ := hact
  obtain ⟨_, _, _, hres⟩ := isAllowed_call_inv env a action pid uid actionUID args hcall
  rw [hres]
  simp [herr]

/-- Witness of C6: the bus fails and leaves `IsAuthorized = true` in the verdict struct; the
check still fails. -/
theorem isAllowed_call_failed_witness :
    (authorityDown (mkCallArgs (mkSubject 42 123456 1000) "self.read")).result.IsAuthorized
      = true ∧
    (isAllowed envBash (authorizerOf authorityDown) actionRead 42 1000 1000).2
      = .done (some "call to polkit failed: dbus: connection closed by user") :=
  ⟨rfl,
   (isAllowed_call_failed envBash (authorizerOf authorityDown) actionRead 42 1000 1000
    (by decide) (by decide) (mkCallArgs (mkSubject 42 123456 1000) "self.read")
    "dbus: connection closed by user" (by decide) rfl).1⟩

/-! ## The parser: library lemmas -/

theorem indexByteFrom_not_mem (c : Char) (s : Bytes) (i : Int) (h : c ∉ s) :
    indexByteFrom c s i = -1 := by
  induction s generalizing i with
  | nil => rfl
  | cons b bs ih =>
    simp only [List.mem_cons, not_or] at h
    have hb : b ≠ c := fun hbc => h.1 hbc.symm
    simp [indexByteFrom, hb, ih (i + 1) h.2]

theorem indexByteFrom_append (c : Char) (pre post : Bytes) (i : Int) (h : c ∉ pre) :
    indexByteFrom c (pre ++ c :: post) i = i + pre.length := by
  induction pre generalizing i with
  | nil => simp [indexByteFrom]
  | cons b bs ih =>
    simp only [List.mem_cons, not_or] at h
    have hb : b ≠ c := fun hbc => h.1 hbc.symm
    rw [List.cons_append, indexByteFrom, if_neg hb, ih (i + 1) h.2, List.length_cons]
    push_cast
    ring

theorem indexByteFrom_range (c : Char) (s : Bytes) (i : Int) :
    indexByteFrom c s i = -1 ∨
      (i ≤ indexByteFrom c s i ∧ indexByteFrom c s i < i + s.length) := by
  induction s generalizing i with
  | nil => exact Or.inl rfl
  | cons b bs ih =>
    by_cases hb : b = c
    · right
      simp only [indexByteFrom, hb, if_true, List.length_cons]
      push_cast
      omega
    · simp only [indexByteFrom, hb, if_false, List.length_cons]
      rcases ih (i + 1) with h | h
      · exact Or.inl h
      · right
        push_cast
        omega

theorem indexByte_append (pre post : Bytes) (c : Char) (h : c ∉ pre) :
    indexByte (pre ++ c :: post) c = pre.length := by
  simp [indexByte, indexByteFrom_append c pre post 0 h]

theorem stringsSplit_ne_nil (sep : Char) (s : Bytes) : stringsSplit sep s ≠ [] := by
  induction s with
  | nil => simp [stringsSplit]
  | cons c cs ih =>
    unfold stringsSplit
    by_cases hc : c = sep
    · simp [hc]
    · simp only [hc, if_false]
      cases h : stringsSplit sep cs with
      | nil => exact absurd h ih
      | cons t ts => simp

theorem stringsSplit_no_sep (sep : Char) (t : Bytes) (h : sep ∉ t) :
    stringsSplit sep t = [t] := by
  induction t with
  | nil => rfl
  | cons c cs ih =>
    simp only [List.mem_cons, not_or] at h
    have hc : c ≠ sep := fun hcs => h.1 hcs.symm
    simp [stringsSplit, hc, ih h.2]

theorem stringsSplit_append_sep (sep : Char) (t rest : Bytes) (h : sep ∉ t) :
    stringsSplit sep (t ++ sep :: rest) = t :: stringsSplit sep rest := by
  induction t with
  | nil => simp [stringsSplit]
  | cons c cs ih =>
    simp only [List.mem_cons, not_or] at h
    have hc : c ≠ sep := fun hcs => h.1 hcs.symm
    simp [stringsSplit, hc, ih h.2]

theorem stringsSplit_intercalate (sep : Char) (ts : List Bytes) (hne : ts ≠ [])
    (h : ∀ t ∈ ts, sep ∉ t) : stringsSplit sep ([sep].intercalate ts) = ts := by
  induction ts with
  | nil => exact absurd rfl hne
  | cons t ts ih =>
    cases ts with
    | nil =>
      simp only [List.intercalate, List.intersperse, List.flatten, List.append_nil]
      exact stringsSplit_no_sep sep t (h t (List.mem_cons_self _ _))
    | cons u us =>
      have hrest : stringsSplit sep ([sep].intercalate (u :: us)) = u :: us :=
        ih (by simp) (fun x hx => h x (List.mem_cons_of_mem _ hx))
      have hshape : [sep].intercalate (t :: u :: us)
          = t ++ sep :: [sep].intercalate (u :: us) := by
        simp [List.intercalate, List.intersperse, List.flatten]
      rw [hshape, stringsSplit_append_sep sep t _ (h t (List.mem_cons_self _ _)), hrest]

theorem two_pow_64 : (2 : Nat) ^ 64 = 18446744073709551616 := by norm_num

theorem cutoff10_eq : cutoff10 = 1844674407370955162 := by
  norm_num [cutoff10, maxUint64]

theorem maxUint64_eq : maxUint64 = 18446744073709551615 := by
  norm_num [maxUint64]

theorem decimalValueFrom_cons (n : Nat) (c : Char) (cs : Bytes) :
    decimalValueFrom n (c :: cs) = decimalValueFrom (n * 10 + (c.toNat - 48)) cs := rfl

theorem le_decimalValueFrom (cs : Bytes) (n : Nat) : n ≤ decimalValueFrom n cs := by
  induction cs generalizing n with
  | nil => exact le_refl _
  | cons c cs ih =>
    rw [decimalValueFrom_cons]
    have := ih (n * 10 + (c.toNat - 48))
    omega

/-- One turn of the digit loop on a digit that does not overflow. -/
theorem parseUintLoop_digit (c : Char) (cs : Bytes) (n : Nat) (hc : isDigitByte c)
    (hlt : n * 10 + (c.toNat - 48) < 2 ^ 64) :
    parseUintLoop (c :: cs) n = parseUintLoop cs (n * 10 + (c.toNat - 48)) := by
  obtain ⟨h1, h2⟩ := hc
  rw [two_pow_64] at hlt
  have hd : ¬ (c.toNat - 48 ≥ 10) := by omega
  have hcut : ¬ (n ≥ cutoff10) := by rw [cutoff10_eq]; omega
  have hm1 : (n * 10) % 2 ^ 64 = n * 10 := Nat.mod_eq_of_lt (by rw [two_pow_64]; omega)
  have hm2 : (n * 10 + (c.toNat - 48)) % 2 ^ 64 = n * 10 + (c.toNat - 48) :=
    Nat.mod_eq_of_lt (by rw [two_pow_64]; omega)
  have hov : ¬ (n * 10 + (c.toNat - 48) < n * 10 ∨ n * 10 + (c.toNat - 48) > maxUint64) := by
    rw [maxUint64_eq]; omega
  rw [parseUintLoop]
  simp only [h1, h2, and_self, if_true, hd, hcut, if_false, hm1, hm2, hov]

/-- The digit loop on a well-formed number returns its value. -/
theorem parseUintLoop_valid (cs : Bytes) (n : Nat) (hall : ∀ c ∈ cs, isDigitByte c)
    (hv : decimalValueFrom n cs < 2 ^ 64) :
    parseUintLoop cs n = (decimalValueFrom n cs, none) := by
  induction cs generalizing n with
  | nil => rfl
  | cons c cs ih =>
    rw [decimalValueFrom_cons] at hv ⊢
    have hle := le_decimalValueFrom cs (n * 10 + (c.toNat - 48))
    rw [parseUintLoop_digit c cs n (hall c (List.mem_cons_self _ _)) (lt_of_le_of_lt hle hv)]
    exact ih _ (fun x hx => hall x (List.mem_cons_of_mem _ hx)) hv

/-- The digit loop on anything else returns an error. -/
theorem parseUintLoop_invalid (cs : Bytes) (n : Nat) (hn : n < 2 ^ 64)
    (h : ¬ ((∀ c ∈ cs, isDigitByte c) ∧ decimalValueFrom n cs < 2 ^ 64)) :
    ∃ v k, parseUintLoop cs n = (v, some k) := by
  induction cs generalizing n with
  | nil =>
    exfalso
    apply h
    exact ⟨fun c hc => absurd hc (List.not_mem_nil c), hn⟩
  | cons c cs ih =>
    by_cases hc : isDigitByte c
    · by_cases hlt : n * 10 + (c.toNat - 48) < 2 ^ 64
      · rw [parseUintLoop_digit c cs n hc hlt]
        apply ih _ hlt
        rintro ⟨hall, hv⟩
        apply h
        refine ⟨fun x hx => ?_, by rw [decimalValueFrom_cons]; exact hv⟩
        rcases List.mem_cons.mp hx with rfl | hx
        · exact hc
        · exact hall x hx
      · obtain ⟨h1, h2⟩ := hc
        rw [two_pow_64] at hlt
        have hd : ¬ (c.toNat - 48 ≥ 10) := by omega
        rw [parseUintLoop]
        simp only [h1, h2, and_self, if_true, hd, if_false]
        by_cases hcut : n ≥ cutoff10
        · simp only [hcut, if_true]
          exact ⟨_, _, rfl⟩
        · simp only [hcut, if_false]
          rw [cutoff10_eq] at hcut
          have hwrap : (n * 10 % 2 ^ 64 + (c.toNat - 48)) % 2 ^ 64 < n * 10 % 2 ^ 64 := by
            rw [two_pow_64]; omega
          simp only [hwrap, true_or, if_true]
          exact ⟨_, _, rfl⟩
    · rw [parseUintLoop]
      have hc2 : ¬ (48 ≤ c.toNat ∧ c.toNat ≤ 57) := hc
      simp only [hc2, if_false]
      split
      · split <;> exact ⟨_, _, rfl⟩
      · exact ⟨_, _, rfl⟩

theorem parseUint_valid (tok : Bytes) (h : validUint64 tok) :
    parseUint tok = (decimalValue tok, none) := by
  obtain ⟨hne, hall, hv⟩ := h
  cases tok with
  | nil => exact absurd rfl hne
  | cons c cs =>
    have := parseUintLoop_valid (c :: cs) 0 hall hv
    simp only [parseUint, this]
    rfl

theorem parseUint_invalid (tok : Bytes) (h : ¬ validUint64 tok) :
    ∃ v e, parseUint tok = (v, some e) := by
  cases tok with
  | nil => exact ⟨_, _, rfl⟩
  | cons c cs =>
    have hinv : ¬ ((∀ x ∈ c :: cs, isDigitByte x) ∧ decimalValueFrom 0 (c :: cs) < 2 ^ 64) :=
      fun hh => h ⟨by simp, hh.1, hh.2⟩
    obtain ⟨v, k, hk⟩ := parseUintLoop_invalid (c :: cs) 0 (by norm_num) hinv
    exact ⟨v, ⟨"ParseUint", c :: cs, k⟩, by simp only [parseUint, hk]⟩

theorem digitChar_toNat (k : Nat) (hk : k < 10) : (Nat.digitChar k).toNat = 48 + k := by
  interval_cases k <;> rfl

theorem toDigitsCore_digits (fuel n : Nat) (ds : Bytes) (hds : ∀ c ∈ ds, isDigitByte c) :
    ∀ c ∈ Nat.toDigitsCore 10 fuel n ds, isDigitByte c := by
  induction fuel generalizing n ds with
  | zero => simpa [Nat.toDigitsCore] using hds
  | succ fuel ih =>
    have hd : isDigitByte (Nat.digitChar (n % 10)) := by
      have := digitChar_toNat (n % 10) (Nat.mod_lt _ (by norm_num))
      unfold isDigitByte
      omega
    have hcons : ∀ c ∈ Nat.digitChar (n % 10) :: ds, isDigitByte c := by
      intro c hc
      rcases List.mem_cons.mp hc with rfl | hc
      · exact hd
      · exact hds c hc
    rw [Nat.toDigitsCore]
    by_cases h0 : n / 10 = 0
    · simpa [h0] using hcons
    · simp only [h0, if_false]
      exact ih (n / 10) _ hcons

theorem toDigitsCore_ne_nil (fuel n : Nat) (ds : Bytes) (hf : fuel ≠ 0) :
    Nat.toDigitsCore 10 fuel n ds ≠ [] := by
  induction fuel generalizing n ds with
  | zero => exact absurd rfl hf
  | succ fuel ih =>
    rw [Nat.toDigitsCore]
    by_cases h0 : n / 10 = 0
    · simp [h0]
    · simp only [h0, if_false]
      cases fuel with
      | zero => simp [Nat.toDigitsCore]
      | succ f => exact ih (n / 10) _ (by simp)

theorem toDigitsCore_value (fuel n : Nat) (ds : Bytes) (hf : n < fuel) :
    decimalValueFrom 0 (Nat.toDigitsCore 10 fuel n ds) = decimalValueFrom n ds := by
  induction fuel generalizing n ds with
  | zero => exact absurd hf (Nat.not_lt_zero n)
  | succ fuel ih =>
    have hd := digitChar_toNat (n % 10) (Nat.mod_lt _ (by norm_num))
    rw [Nat.toDigitsCore]
    by_cases h0 : n / 10 = 0
    · simp only [h0, if_true]
      rw [decimalValueFrom_cons, hd]
      congr 1
      omega
    · simp only [h0, if_false]
      rw [ih (n / 10) _ (by omega), decimalValueFrom_cons, hd]
      congr 1
      omega

/-- The plain decimal representation of a number below `2^64` is a valid token whose value
is the number. -/
theorem decimalRepr_valid (n : Nat) (hn : n < 2 ^ 64) :
    validUint64 (decimalRepr n) ∧ decimalValue (decimalRepr n) = n := by
  have hrepr : decimalRepr n = Nat.toDigitsCore 10 (n + 1) n [] := rfl
  have hval : decimalValue (decimalRepr n) = n := by
    rw [hrepr]
    exact toDigitsCore_value (n + 1) n [] (Nat.lt_succ_self n)
  refine ⟨⟨?_, ?_, ?_⟩, hval⟩
  · rw [hrepr]
    exact toDigitsCore_ne_nil (n + 1) n [] (by simp)
  · rw [hrepr]
    exact toDigitsCore_digits (n + 1) n [] (fun c hc => absurd hc (List.not_mem_nil c))
  · rw [hval]
    exact hn

/-! ## The parser: the record -/

theorem sliceFrom_after_paren (pre rest : Bytes) (p sp : Char) :
    sliceFrom (pre ++ p :: sp :: rest) ((pre.length : Int) + 2) = some rest := by
  have hdrop : List.drop (pre.length + 2) (pre ++ p :: sp :: rest) = rest := by
    rw [List.drop_append]
    rfl
  have hnat : ((pre.length : Int) + 2).toNat = pre.length + 2 := by omega
  unfold sliceFrom
  rw [if_pos, hnat, hdrop]
  constructor
  · omega
  · simp only [List.length_append, List.length_cons]
    push_cast
    omega

/-- No `)` in the record: the parser reports it. -/
theorem getStartTimeBody_no_paren (env : Env) (contents : Bytes) (h : ')' ∉ contents) :
    getStartTimeBody env (contents, none) = .done (0, some "parsing error: missing )") := by
  unfold getStartTimeBody
  simp [indexByte, indexByteFrom_not_mem _ contents 0 h]

/-- The first `)` is the last byte of the record: the parser reports it. -/
theorem getStartTimeBody_paren_last (env : Env) (pre : Bytes) (h : ')' ∉ pre) :
    getStartTimeBody env (pre ++ [')'], none)
      = .done (0, some "parsing error: ) at the end") := by
  unfold getStartTimeBody
  have hlen : ¬ ((pre.length : Int) < 0) := by omega
  have hend : ((pre.length : Int) + 2 > ((pre ++ [')']).length : Int)) := by
    simp only [List.length_append, List.length_cons, List.length_nil]
    push_cast
    omega
  simp only [indexByte_append pre [] ')' h, hlen, if_false, hend, if_true]

/-- The record after its first `)`: two bytes are skipped and the rest is split on spaces. -/
theorem getStartTimeBody_after_paren (env : Env) (pre rest : Bytes) (sp : Char)
    (h : ')' ∉ pre) :
    getStartTimeBody env (pre ++ ')' :: sp :: rest, none) =
      if (stringsSplit ' ' rest).length < 20 then
        .done (0, some "parsing error: less fields than required")
      else
        match indexAt (stringsSplit ' ' rest) 19 with
        | none => .panic
        | some tok =>
          match parseUint tok with
          | (_, some err) => .done (0, some ("parsing error: " ++ err.Error env))
          | (v, none) => .done (v, none) := by
  unfold getStartTimeBody
  have hlen : ¬ ((pre.length : Int) < 0) := by omega
  have hend : ¬ ((pre.length : Int) + 2 > ((pre ++ ')' :: sp :: rest).length : Int)) := by
    simp only [List.length_append, List.length_cons]
    push_cast
    omega
  simp only [indexByte_append pre (sp :: rest) ')' h, hlen, if_false, hend,
    sliceFrom_after_paren]

/-- The body of the parser never panics: it returns a value or an error with value 0. -/
theorem getStartTimeBody_done (env : Env) (r : Bytes × Option String) :
    ∃ v err, getStartTimeBody env r = .done (v, err) ∧ (err = none ∨ v = 0) := by
  obtain ⟨data, rerr⟩ := r
  cases rerr with
  | some e => exact ⟨0, some e, rfl, Or.inr rfl⟩
  | none =>
    unfold getStartTimeBody
    simp only
    by_cases h1 : indexByte data ')' < 0
    · simp only [h1, if_true]
      exact ⟨_, _, rfl, Or.inr rfl⟩
    · simp only [h1, if_false]
      by_cases h2 : indexByte data ')' + 2 > (data.length : Int)
      · simp only [h2, if_true]
        exact ⟨_, _, rfl, Or.inr rfl⟩
      · simp only [h2, if_false]
        have hs : sliceFrom data (indexByte data ')' + 2)
            = some (data.drop (indexByte data ')' + 2).toNat) := by
          unfold sliceFrom
          rw [if_pos]
          constructor <;> omega
        simp only [hs]
        by_cases h3 : (stringsSplit ' ' (data.drop (indexByte data ')' + 2).toNat)).length < 20
        · simp only [h3, if_true]
          exact ⟨_, _, rfl, Or.inr rfl⟩
        · simp only [h3, if_false]
          have h19 : 19 < (stringsSplit ' ' (data.drop (indexByte data ')' + 2).toNat)).length := by
            omega
          have hidx : indexAt (stringsSplit ' ' (data.drop (indexByte data ')' + 2).toNat)) 19
              = some ((stringsSplit ' ' (data.drop (indexByte data ')' + 2).toNat)).get
                  ⟨19, h19⟩) := by
            unfold indexAt
            exact List.getElem?_eq_getElem h19
          simp only [hidx]
          rcases hp : parseUint ((stringsSplit ' '
              (data.drop (indexByte data ')' + 2).toNat)).get ⟨19, h19⟩) with ⟨v, _ | e⟩
          · exact ⟨_, _, rfl, Or.inl rfl⟩
          · exact ⟨_, _, rfl, Or.inr rfl⟩

theorem getStartTimeFromReader_done (env : Env) (r : Bytes × Option String) :
    ∃ v err, getStartTimeFromReader env r = .done (v, err) ∧ (err = none ∨ v = 0) := by
  obtain ⟨v, err, h, hv⟩ := getStartTimeBody_done env r
  refine ⟨v, decorateOnError "can't determine start time of client process" err, ?_, ?_⟩
  · simp only [getStartTimeFromReader, h]
  · rcases hv with rfl | rfl
    · exact Or.inl rfl
    · exact Or.inr rfl

/-- C7: the parser takes the first `)` of the record, not the last. For process 42 whose
fields after the name are `recordFields` (start time 777): with the name `a` the parser
returns 777; with the name `a) b` it returns 0, the field before the start time, while the search backwards that the comment of the function describes gives 777. The
returned start time does depend on the name the process chose. -/
theorem getStartTimeFromReader_first_paren (env : Env) :
    getStartTimeFromReader env (statRecord "42".toList "a".toList recordFields, none)
      = .done (777, none) ∧
    getStartTimeFromReader env (statRecord "42".toList "a) b".toList recordFields, none)
      = .done (0, none) ∧
    startTimeSearchingBackwards (statRecord "42".toList "a) b".toList recordFields)
      = some 777 ∧
    recordFields[19]? = some "777".toList := by
  refine ⟨?_, ?_, ?_, ?_⟩ <;> rfl

/-- C8: for a record `pid (comm) ` followed by fields joined by single spaces, where neither
`pid` nor `comm` holds a `)`, no field holds a space, there are at least 20 fields and the
field at index 19 is the plain decimal representation of `n < 2^64`, the parser returns
exactly `n` and no error. -/
theorem getStartTimeFromReader_valid_record (env : Env) (pid comm : Bytes)
    (fields : List Bytes) (n : Nat)
    (hpid : ')' ∉ pid) (hcomm : ')' ∉ comm)
    (hfields : ∀ t ∈ fields, ' ' ∉ t) (hlen : 20 ≤ fields.length)
    (h19 : fields[19]? = some (decimalRepr n)) (hn : n < 2 ^ 64) :
    getStartTimeFromReader env (statRecord pid comm fields, none) = .done (n, none) := by
  have hne : fields ≠ [] := by
    intro h
    rw [h] at hlen
    simp at hlen
  have hpre : ')' ∉ pid ++ [' ', '('] ++ comm := by
    simp only [List.mem_append, List.mem_cons, List.mem_singleton, not_or]
    refine ⟨⟨hpid, by decide, ?_⟩, hcomm⟩
    simp
  have hshape : statRecord pid comm fields
      = (pid ++ [' ', '('] ++ comm) ++ ')' :: ' ' :: [' '].intercalate fields := by
    simp [statRecord]
  have hlen2 : ¬ (fields.length < 20) := by omega
  obtain ⟨hvalid, hval⟩ := decimalRepr_valid n hn
  rw [getStartTimeFromReader, hshape, getStartTimeBody_after_paren env _ _ _ hpre,
    stringsSplit_intercalate ' ' fields hne hfields]
  simp only [hlen2, if_false, indexAt, h19, parseUint_valid _ hvalid, hval, decorateOnError]

/-- Witness of C8: the record of process 42 (`bash`) with start-time token `123456`. -/
theorem getStartTimeFromReader_valid_record_witness :
    getStartTimeFromReader envBash
      (statRecord "42".toList "bash".toList
        ["S".toList, "1".toList, "42".toList, "42".toList, "34816".toList, "42".toList,
         "4194304".toList, "100".toList, "0".toList, "0".toList, "0".toList, "1".toList,
         "2".toList, "0".toList, "0".toList, "20".toList, "0".toList, "1".toList, "0".toList,
         "123456".toList], none) = .done (123456, none) :=
  getStartTimeFromReader_valid_record envBash "42".toList "bash".toList _ 123456
    (by decide) (by decide) (by decide) (by decide) (by rfl) (by norm_num)

/-- C9: the parser returns value 0 and a non-nil error for every record in which no `)`
occurs; or the first `)` is the last byte; or fewer than 20 space-separated tokens follow
the two bytes skipped at the first `)`; or the token at index 19 is not a non-empty string
of decimal digits with a value below `2^64`. -/
theorem getStartTimeFromReader_parse_errors (env : Env) (contents : Bytes)
    (h : ')' ∉ contents ∨
      (∃ pre, contents = pre ++ [')'] ∧ ')' ∉ pre) ∨
      (∃ pre sp rest, contents = pre ++ ')' :: sp :: rest ∧ ')' ∉ pre ∧
        (stringsSplit ' ' rest).length < 20) ∨
      (∃ pre sp rest tok, contents = pre ++ ')' :: sp :: rest ∧ ')' ∉ pre ∧
        (stringsSplit ' ' rest)[19]? = some tok ∧ ¬ validUint64 tok)) :
    ∃ msg, getStartTimeFromReader env (contents, none) = .done (0, some msg) := by
  rcases h with h | ⟨pre, rfl, h⟩ | ⟨pre, sp, rest, rfl, h, hlt⟩ | ⟨pre, sp, rest, tok, rfl, h, htok, hbad⟩
  · exact ⟨_, by rw [getStartTimeFromReader, getStartTimeBody_no_paren env _ h]; rfl⟩
  · exact ⟨_, by rw [getStartTimeFromReader, getStartTimeBody_paren_last env _ h]; rfl⟩
  · exact ⟨_, by rw [getStartTimeFromReader, getStartTimeBody_after_paren env _ _ _ h,
      if_pos hlt]; rfl⟩
  · obtain ⟨v, e, he⟩ := parseUint_invalid tok hbad
    have hlen : ¬ ((stringsSplit ' ' rest).length < 20) := by
      intro hlt
      have := List.getElem?_eq_none (show (stringsSplit ' ' rest).length ≤ 19 by omega)
      rw [this] at htok
      cases htok
    exact ⟨_, by rw [getStartTimeFromReader, getStartTimeBody_after_paren env _ _ _ h,
      if_neg hlen, indexAt, htok]; simp only [he]; rfl⟩

/-- Witness of C9: one record for each of the four causes. -/
theorem getStartTimeFromReader_parse_errors_witness :
    (∃ msg, getStartTimeFromReader envBash ("42 (bash".toList, none) = .done (0, some msg)) ∧
    (∃ msg, getStartTimeFromReader envBash ("42 (bash)".toList, none) = .done (0, some msg)) ∧
    (∃ msg, getStartTimeFromReader envBash ("42 (bash) S 1 42".toList, none)
      = .done (0, some msg)) ∧
    (∃ msg, getStartTimeFromReader envBash
      ("42 (bash) S 1 2 3 4 5 6 7 8 9 10 11 12 13 14 15 16 17 18 123456\n".toList, none)
      = .done (0, some msg)) :=
  ⟨getStartTimeFromReader_parse_errors envBash "42 (bash".toList (Or.inl (by decide)),
   getStartTimeFromReader_parse_errors envBash "42 (bash)".toList
    (Or.inr (Or.inl ⟨"42 (bash".toList, rfl, by decide⟩)),
   getStartTimeFromReader_parse_errors envBash "42 (bash) S 1 42".toList
    (Or.inr (Or.inr (Or.inl ⟨"42 (bash".toList, ' ', "S 1 42".toList, rfl, by decide,
      by decide⟩))),
   getStartTimeFromReader_parse_errors envBash
    "42 (bash) S 1 2 3 4 5 6 7 8 9 10 11 12 13 14 15 16 17 18 123456\n".toList
    (Or.inr (Or.inr (Or.inr ⟨"42 (bash".toList, ' ',
      "S 1 2 3 4 5 6 7 8 9 10 11 12 13 14 15 16 17 18 123456\n".toList, "123456\n".toList,
      rfl, by decide, by rfl, by decide⟩)))⟩

/-- C10: the parser never crashes. For every outcome of reading the reader (any bytes, with
or without a read error) the slice `contents[idx:]` and the index `tokens[19]` are in range
whenever they are evaluated, so the function does not panic: it returns a value with a nil
error, or value 0 with an error. -/
theorem getStartTimeFromReader_never_panics (env : Env) (r : Bytes × Option String) :
    getStartTimeFromReader env r ≠ .panic ∧
    ((∃ v, getStartTimeFromReader env r = .done (v, none)) ∨
     (∃ msg, getStartTimeFromReader env r = .done (0, some msg))) := by
  obtain ⟨v, err, h, hv⟩ := getStartTimeFromReader_done env r
  refine ⟨by rw [h]; simp, ?_⟩
  cases err with
  | none => exact Or.inl ⟨v, h⟩
  | some msg =>
    rcases hv with hv | rfl
    · cases hv
    · exact Or.inr ⟨msg, h⟩

/-! ## The gate: the call and the stat record -/

/-- An authority call in a trace of `isAllowed` is the call built from the parsed start
time of the stat record. -/
theorem isAllowed_call_shape (env : Env) (a : Authorizer) (action : Action) (pid : Int)
    (uid actionUID : Nat) (args : CallArgs)
    (hcall : args ∈ authorityCalls (isAllowed env a action pid uid actionUID).1) :
    ∃ f startTime, env.openFile (statPath env a pid) = .ok f ∧
      getStartTimeFromReader env f = .done (startTime, none) ∧
      args = mkCallArgs (mkSubject pid startTime uid) (resolveAction action uid actionUID).ID := by
  obtain ⟨huid, hact, _, _⟩ := isAllowed_call_inv env a action pid uid actionUID args hcall
  rcases isAllowed_slow_path env a action pid uid actionUID huid hact with
    ⟨e, _, h⟩ | ⟨f, _, _, h⟩ | ⟨f, t, err, _, _, h⟩ | ⟨f, t, ho, hp, h⟩
  · rw [h] at hcall; simp [authorityCalls] at hcall
  · rw [h] at hcall; simp [authorityCalls] at hcall
  · rw [h] at hcall; simp [authorityCalls] at hcall
  · rw [h] at hcall
    simp only [authorityCalls, List.mem_singleton] at hcall
    exact ⟨f, t, ho, hp, hcall⟩

/-- C11: every authority call made by `isAllowed` is the method
`org.freedesktop.PolicyKit1.Authority.CheckAuthorization` with, in order: a subject of kind
`unix-process` whose details are exactly the keys `pid` (unsigned 32-bit: the caller pid when
it is positive, 0 otherwise), `start-time` (the unsigned 64-bit value parsed from the stat
record) and `uid` (the caller uid); the resolved action id; an empty details map; the flags
`0x01`; the empty cancellation string. -/
theorem isAllowed_call_arguments (env : Env) (a : Authorizer) (action : Action) (pid : Int)
    (uid actionUID : Nat) (args : CallArgs)
    (hcall : args ∈ authorityCalls (isAllowed env a action pid uid actionUID).1) :
    args.method = "org.freedesktop.PolicyKit1.Authority.CheckAuthorization" ∧
    args.subject.Kind = "unix-process" ∧
    (∃ f startTime, env.openFile (statPath env a pid) = .ok f ∧
      getStartTimeFromReader env f = .done (startTime, none) ∧
      args.subject.Details =
        [("pid", .uint32 (if pid > 0 then pid.toNat else 0)),
         ("start-time", .uint64 startTime), ("uid", .uint32 uid)]) ∧
    args.actionID = (resolveAction action uid actionUID).ID ∧
    args.details = [] ∧ args.checkFlags = 0x01 ∧ args.cancellationID = "" := by
  obtain ⟨f, t, ho, hp, rfl⟩ :=
    isAllowed_call_shape env a action pid uid actionUID args hcall
  exact ⟨rfl, rfl, ⟨f, t, ho, hp, rfl⟩, rfl, rfl, rfl, rfl⟩

/-- Witness of C11: the call made for process 42 of user 1000 asking for a plain action. -/
theorem isAllowed_call_arguments_witness :
    (mkCallArgs (mkSubject 42 123456 1000) "com.ubuntu.adsys.service.manage").subject.Details
      = [("pid", .uint32 42), ("start-time", .uint64 123456), ("uid", .uint32 1000)] ∧
    (mkCallArgs (mkSubject 42 123456 1000) "com.ubuntu.adsys.service.manage").checkFlags = 1 ∧
    (mkCallArgs (mkSubject 42 123456 1000) "com.ubuntu.adsys.service.manage").method
      = "org.freedesktop.PolicyKit1.Authority.CheckAuthorization" :=
  ⟨rfl,
   (isAllowed_call_arguments envBash (authorizerOf authorityYes) actionPlain 42 1000 0
      (mkCallArgs (mkSubject 42 123456 1000) "com.ubuntu.adsys.service.manage")
      (by decide)).2.2.2.2.2.1,
   (isAllowed_call_arguments envBash (authorizerOf authorityYes) actionPlain 42 1000 0
      (mkCallArgs (mkSubject 42 123456 1000) "com.ubuntu.adsys.service.manage")
      (by decide)).1⟩

/-- C16: for a non-zero caller uid and a non-sentinel action, `isAllowed` first opens the
path made of the root joined with `proc/<pid>/stat`, the pid printed as a signed decimal
(the root of an authorizer built by `New` without options is `/`); when the open fails, or
the parser returns an error on the contents, `isAllowed` returns a non-nil error and its
trace holds that open only: the authority is not called. -/
theorem isAllowed_stat_failure (env : Env) (a : Authorizer) (action : Action) (pid : Int)
    (uid actionUID : Nat) (huid : uid ≠ 0) (hact : action ≠ ActionAlwaysAllowed) :
    statPath env a pid = env.join a.root ("proc/" ++ toString pid ++ "/stat") ∧
    (∃ rest, (isAllowed env a action pid uid actionUID).1
      = .openStat (statPath env a pid) :: rest) ∧
    (∀ e, env.openFile (statPath env a pid) = .error e →
      isAllowed env a action pid uid actionUID =
        ([.openStat (statPath env a pid)],
          .done (some ("couldn't open stat file for process: " ++ e)))) ∧
    (∀ f v msg, env.openFile (statPath env a pid) = .ok f →
      getStartTimeFromReader env f = .done (v, some msg) →
      isAllowed env a action pid uid actionUID =
        ([.openStat (statPath env a pid)], .done (some msg))) ∧
    (∀ busAuthority osUserLookup, (New busAuthority osUserLookup []).root = "/") := by
  refine ⟨rfl, ?_, ?_, ?_, fun _ _ => rfl⟩
  · rcases isAllowed_slow_path env a action pid uid actionUID huid hact with
      ⟨e, _, h⟩ | ⟨f, _, _, h⟩ | ⟨f, t, err, _, _, h⟩ | ⟨f, t, _, _, h⟩ <;>
      exact ⟨_, by rw [h]⟩
  · intro e he
    rcases isAllowed_slow_path env a action pid uid actionUID huid hact with
      ⟨e2, ho, h⟩ | ⟨f, ho, _, h⟩ | ⟨f, t, err, ho, _, h⟩ | ⟨f, t, ho, _, h⟩
    · rw [ho] at he; cases he; exact h
    · rw [ho] at he; cases he
    · rw [ho] at he; cases he
    · rw [ho] at he; cases he
  · intro f v msg hf hparse
    rcases isAllowed_slow_path env a action pid uid actionUID huid hact with
      ⟨e2, ho, h⟩ | ⟨f2, ho, hp, h⟩ | ⟨f2, t, err, ho, hp, h⟩ | ⟨f2, t, ho, hp, h⟩
    · rw [ho] at hf; cases hf
    · rw [ho] at hf; cases hf; rw [hp] at hparse; cases hparse
    · rw [ho] at hf; cases hf; rw [hp] at hparse; cases hparse; exact h
    · rw [ho] at hf; cases hf; rw [hp] at hparse; cases hparse

/-- Witness of C16: with no stat file, a request of user 1000 for pid -7 through an
authorizer built by `New` opens the stat file of that pid under `/proc` and fails without
calling the authority. -/
theorem isAllowed_stat_failure_witness :
    (1000 : Nat) ≠ 0 ∧ actionPlain ≠ ActionAlwaysAllowed ∧
    isAllowed envNoFiles (New authorityYes (lookupAlice "1000") []) actionPlain (-7) 1000 0 =
      ([.openStat "/proc/-7/stat"],
        .done (some "couldn't open stat file for process: no such file")) :=
  ⟨by decide, by decide,
   (isAllowed_stat_failure envNoFiles (New authorityYes (lookupAlice "1000") []) actionPlain
      (-7) 1000 0 (by decide) (by decide)).2.2.1 "no such file" rfl⟩

/-- C20: the bypass is decided by the value of the three fields. For a non-zero caller uid
`isAllowed` takes the fast path (nil, empty trace) exactly when `ID` is `always-allowed` and
`SelfID` and `OtherID` are empty. The zero-valued action is not bypassed: its trace is not
empty, and when the stat record is read and parsed it is sent to the authority with the
empty action id. -/
theorem isAllowed_fast_path_iff (env : Env) (a : Authorizer) (action : Action) (pid : Int)
    (uid actionUID : Nat) (huid : uid ≠ 0) :
    (isAllowed env a action pid uid actionUID = ([], .done none) ↔
      action.ID = "always-allowed" ∧ action.SelfID = "" ∧ action.OtherID = "") ∧
    (isAllowed env a { ID := "", SelfID := "", OtherID := "" } pid uid actionUID).1 ≠ [] ∧
    (∀ f startTime, env.openFile (statPath env a pid) = .ok f →
      getStartTimeFromReader env f = .done (startTime, none) →
      (isAllowed env a { ID := "", SelfID := "", OtherID := "" } pid uid actionUID).1 =
        [.openStat (statPath env a pid),
          .authorityCall (mkCallArgs (mkSubject pid startTime uid) "")]) := by
  have hzero : ({ ID := "", SelfID := "", OtherID := "" } : Action) ≠ ActionAlwaysAllowed := by
    decide
  have hnonempty : ∀ act : Action, act ≠ ActionAlwaysAllowed →
      (isAllowed env a act pid uid actionUID).1 ≠ [] := by
    intro act hact
    rcases isAllowed_slow_path env a act pid uid actionUID huid hact with
      ⟨e, _, h⟩ | ⟨f, _, _, h⟩ | ⟨f, t, err, _, _, h⟩ | ⟨f, t, _, _, h⟩ <;>
      rw [h] <;> simp
  refine ⟨⟨fun h => ?_, fun h => ?_⟩, hnonempty _ hzero, fun f st hf hp => ?_⟩
  · by_cases hact : action = ActionAlwaysAllowed
    · subst hact
      exact ⟨rfl, rfl, rfl⟩
    · exact absurd (congrArg Prod.fst h) (hnonempty action hact)
  · have hact : action = ActionAlwaysAllowed := by
      cases action
      simp only [ActionAlwaysAllowed, Action.mk.injEq]
      exact h
    subst hact
    exact isAllowed_always_allowed env a pid uid actionUID huid
  · rcases isAllowed_slow_path env a _ pid uid actionUID huid hzero with
      ⟨e2, ho, h⟩ | ⟨f2, ho, hp2, h⟩ | ⟨f2, t, err, ho, hp2, h⟩ | ⟨f2, t, ho, hp2, h⟩
    · rw [ho] at hf; cases hf
    · rw [ho] at hf; cases hf; rw [hp2] at hp; cases hp
    · rw [ho] at hf; cases hf; rw [hp2] at hp; cases hp
    · rw [ho] at hf; cases hf; rw [hp2] at hp; cases hp
      rw [h]
      rfl

/-- Witness of C20: user 1000 asking for the zero-valued action is checked by the authority
under the empty action id. -/
theorem isAllowed_fast_path_iff_witness :
    (1000 : Nat) ≠ 0 ∧
    (isAllowed envBash (authorizerOf authorityYes) { ID := "", SelfID := "", OtherID := "" }
        42 1000 0).1 =
      [.openStat "/proc/42/stat", .authorityCall (mkCallArgs (mkSubject 42 123456 1000) "")] :=
  ⟨by decide,
   (isAllowed_fast_path_iff envBash (authorizerOf authorityYes)
      { ID := "", SelfID := "", OtherID := "" } 42 1000 0
      (by decide)).2.2 (recordBash, none) 123456 rfl (by decide)⟩

/-! ## The public entry point: parsing the target uid -/

/-- One turn of the sized digit loop on a digit that stays within the bit size. -/
theorem parseUintLoopBits_digit (maxVal : Nat) (c : Char) (cs : Bytes) (n : Nat)
    (hmax : maxVal < 2 ^ 64) (hc : isDigitByte c) (hle : n * 10 + (c.toNat - 48) ≤ maxVal) :
    parseUintLoopBits maxVal (c :: cs) n
      = parseUintLoopBits maxVal cs (n * 10 + (c.toNat - 48)) := by
  obtain ⟨h1, h2⟩ := hc
  rw [two_pow_64] at hmax
  have hd : ¬ (c.toNat - 48 ≥ 10) := by omega
  have hcut : ¬ (n ≥ cutoff10) := by rw [cutoff10_eq]; omega
  have hm1 : (n * 10) % 2 ^ 64 = n * 10 := Nat.mod_eq_of_lt (by rw [two_pow_64]; omega)
  have hm2 : (n * 10 + (c.toNat - 48)) % 2 ^ 64 = n * 10 + (c.toNat - 48) :=
    Nat.mod_eq_of_lt (by rw [two_pow_64]; omega)
  have hov : ¬ (n * 10 + (c.toNat - 48) < n * 10 ∨ n * 10 + (c.toNat - 48) > maxVal) := by
    omega
  rw [parseUintLoopBits]
  simp only [h1, h2, and_self, if_true, hd, hcut, if_false, hm1, hm2, hov]

/-- The sized digit loop on a number within the bit size returns its value. -/
theorem parseUintLoopBits_valid (maxVal : Nat) (cs : Bytes) (n : Nat) (hmax : maxVal < 2 ^ 64)
    (hall : ∀ c ∈ cs, isDigitByte c) (hv : decimalValueFrom n cs ≤ maxVal) :
    parseUintLoopBits maxVal cs n = (decimalValueFrom n cs, none) := by
  induction cs generalizing n with
  | nil => rfl
  | cons c cs ih =>
    rw [decimalValueFrom_cons] at hv ⊢
    have hle := le_decimalValueFrom cs (n * 10 + (c.toNat - 48))
    rw [parseUintLoopBits_digit maxVal c cs n hmax (hall c (List.mem_cons_self _ _))
      (le_trans hle hv)]
    exact ih _ (fun x hx => hall x (List.mem_cons_of_mem _ hx)) hv

/-- The sized digit loop on anything else returns an error. -/
theorem parseUintLoopBits_invalid (maxVal : Nat) (cs : Bytes) (n : Nat) (hmax : maxVal < 2 ^ 64)
    (hn : n ≤ maxVal)
    (h : ¬ ((∀ c ∈ cs, isDigitByte c) ∧ decimalValueFrom n cs ≤ maxVal)) :
    ∃ v k, parseUintLoopBits maxVal cs n = (v, some k) := by
  induction cs generalizing n with
  | nil =>
    exfalso
    apply h
    exact ⟨fun c hc => absurd hc (List.not_mem_nil c), hn⟩
  | cons c cs ih =>
    by_cases hc : isDigitByte c
    · by_cases hle : n * 10 + (c.toNat - 48) ≤ maxVal
      · rw [parseUintLoopBits_digit maxVal c cs n hmax hc hle]
        apply ih _ hle
        rintro ⟨hall, hv⟩
        apply h
        refine ⟨fun x hx => ?_, by rw [decimalValueFrom_cons]; exact hv⟩
        rcases List.mem_cons.mp hx with rfl | hx
        · exact hc
        · exact hall x hx
      · obtain ⟨h1, h2⟩ := hc
        rw [two_pow_64] at hmax
        have hd : ¬ (c.toNat - 48 ≥ 10) := by omega
        rw [parseUintLoopBits]
        simp only [h1, h2, and_self, if_true, hd, if_false]
        by_cases hcut : n ≥ cutoff10
        · simp only [hcut, if_true]
          exact ⟨_, _, rfl⟩
        · simp only [hcut, if_false]
          rw [cutoff10_eq] at hcut
          have hwrap : (n * 10 % 2 ^ 64 + (c.toNat - 48)) % 2 ^ 64 < n * 10 % 2 ^ 64 ∨
              (n * 10 % 2 ^ 64 + (c.toNat - 48)) % 2 ^ 64 > maxVal := by
            rw [two_pow_64]; omega
          simp only [hwrap, if_true]
          exact ⟨_, _, rfl⟩
    · rw [parseUintLoopBits]
      have hc2 : ¬ (48 ≤ c.toNat ∧ c.toNat ≤ 57) := hc
      simp only [hc2, if_false]
      split
      · split <;> exact ⟨_, _, rfl⟩
      · exact ⟨_, _, rfl⟩

theorem wordSize_max_lt (w : WordSize) : 2 ^ w.bits - 1 < 2 ^ 64 := by
  cases w <;> norm_num [WordSize.bits]

theorem wordSize_max_ge (w : WordSize) : 2 ^ 32 - 1 ≤ 2 ^ w.bits - 1 := by
  cases w <;> norm_num [WordSize.bits]

/-- A uid string that fits in 32 bits is parsed to its value, whatever the platform. -/
theorem parseUintIntSize_valid (w : WordSize) (tok : Bytes) (h : validUint32 tok) :
    parseUintIntSize w tok = (decimalValue tok, none) := by
  obtain ⟨hne, hall, hv⟩ := h
  cases tok with
  | nil => exact absurd rfl hne
  | cons c cs =>
    have := parseUintLoopBits_valid (2 ^ w.bits - 1) (c :: cs) 0 (wordSize_max_lt w) hall
      (le_trans hv (wordSize_max_ge w))
    simp only [parseUintIntSize, this]
    rfl

/-- A uid string that does not fit in 32 bits is rejected by the parser, or parsed to a
value above `math.MaxUint32`. -/
theorem parseUintIntSize_invalid (w : WordSize) (tok : Bytes) (h : ¬ validUint32 tok) :
    (∃ v e, parseUintIntSize w tok = (v, some e)) ∨
    (∃ v, parseUintIntSize w tok = (v, none) ∧ v > maxUint32) := by
  cases tok with
  | nil => exact Or.inl ⟨_, _, rfl⟩
  | cons c cs =>
    by_cases hv : (∀ x ∈ c :: cs, isDigitByte x) ∧ decimalValueFrom 0 (c :: cs) ≤ 2 ^ w.bits - 1
    · right
      have := parseUintLoopBits_valid (2 ^ w.bits - 1) (c :: cs) 0 (wordSize_max_lt w) hv.1 hv.2
      refine ⟨decimalValueFrom 0 (c :: cs), by simp only [parseUintIntSize, this], ?_⟩
      by_contra hle
      apply h
      refine ⟨by simp, hv.1, ?_⟩
      unfold maxUint32 at hle
      unfold decimalValue
      omega
    · left
      obtain ⟨v, k, hk⟩ := parseUintLoopBits_invalid (2 ^ w.bits - 1) (c :: cs) 0
        (wordSize_max_lt w) (Nat.zero_le _) hv
      exact ⟨v, ⟨"ParseUint", c :: cs, k⟩, by simp only [parseUintIntSize, hk]⟩

/-- The plain decimal representation of any number is a non-empty string of digits whose
value is the number. -/
theorem decimalRepr_digits (n : Nat) :
    decimalRepr n ≠ [] ∧ (∀ c ∈ decimalRepr n, isDigitByte c) ∧
      decimalValue (decimalRepr n) = n := by
  have hrepr : decimalRepr n = Nat.toDigitsCore 10 (n + 1) n [] := rfl
  refine ⟨?_, ?_, ?_⟩
  · rw [hrepr]
    exact toDigitsCore_ne_nil (n + 1) n [] (by simp)
  · rw [hrepr]
    exact toDigitsCore_digits (n + 1) n [] (fun c hc => absurd hc (List.not_mem_nil c))
  · rw [hrepr]
    exact toDigitsCore_value (n + 1) n [] (Nat.lt_succ_self n)

/-! ## The public entry point: the steps before `isAllowed` -/

/-- Without peer credentials the body stops at once. -/
theorem IsAllowedFromContextBody_no_creds (w : WordSize) (env : Env) (a : Authorizer)
    (ctx : Context) (action : Action) (h : ctx.peer = none ∨ ctx.peer = some .other) :
    IsAllowedFromContextBody w env a ctx action =
        ([], .done (some "context request doesn't have grpc peer creds informations.")) ∨
    IsAllowedFromContextBody w env a ctx action =
        ([], .done
          (some "context request grpc peer creeds information is not a peerCredsInfo.")) := by
  rcases h with h | h
  · left
    simp only [IsAllowedFromContextBody, h]
  · right
    simp only [IsAllowedFromContextBody, h]

/-- With credentials and an action without `SelfID` the body is `isAllowed` for target 0. -/
theorem IsAllowedFromContextBody_plain (w : WordSize) (env : Env) (a : Authorizer)
    (ctx : Context) (action : Action) (pci : peerCredsInfo)
    (hpeer : ctx.peer = some (.creds pci)) (hself : action.SelfID = "") :
    IsAllowedFromContextBody w env a ctx action =
      ((isAllowed env a action pci.pid pci.uid 0).1.map .gate,
        (isAllowed env a action pci.pid pci.uid 0).2) := by
  simp only [IsAllowedFromContextBody, hpeer, hself, ne_eq, not_true_eq_false, if_false]

/-- With credentials and an action with a `SelfID`, the body resolves the target user
first: it stops when the name is absent, when the lookup fails, or when the uid string does
not fit in 32 bits; otherwise it is `isAllowed` for the value of the uid string. -/
theorem IsAllowedFromContextBody_self (w : WordSize) (env : Env) (a : Authorizer)
    (ctx : Context) (action : Action) (pci : peerCredsInfo)
    (hpeer : ctx.peer = some (.creds pci)) (hself : action.SelfID ≠ "") :
    (ctx.userName = none ∧
      IsAllowedFromContextBody w env a ctx action =
        ([], .done (some "request to act on user action should have a user name attached"))) ∨
    (∃ name e, ctx.userName = some name ∧ a.userLookup name = .error e ∧
      IsAllowedFromContextBody w env a ctx action =
        ([.userLookup name],
          .done (some ("couldn't retrieve user for " ++ env.quote name ++ ": " ++ e)))) ∨
    (∃ name user, ctx.userName = some name ∧ a.userLookup name = .ok user ∧
      ¬ validUint32 user.Uid.toList ∧
      (IsAllowedFromContextBody w env a ctx action =
          ([.userLookup name],
            .done (some ("couldn't convert " ++ env.quote user.Uid ++ " to a valid uid for "
              ++ env.quote name))) ∨
        ∃ v : Nat, IsAllowedFromContextBody w env a ctx action =
          ([.userLookup name],
            .done (some ("uid value " ++ toString v
              ++ " is too large to convert to an uint32"))))) ∨
    (∃ name user, ctx.userName = some name ∧ a.userLookup name = .ok user ∧
      validUint32 user.Uid.toList ∧
      IsAllowedFromContextBody w env a ctx action =
        (.userLookup name ::
            (isAllowed env a action pci.pid pci.uid (decimalValue user.Uid.toList)).1.map .gate,
          (isAllowed env a action pci.pid pci.uid (decimalValue user.Uid.toList)).2)) := by
  unfold IsAllowedFromContextBody
  simp only [hpeer, hself, ne_eq, not_false_eq_true, if_true]
  cases hname : ctx.userName with
  | none => exact Or.inl ⟨rfl, rfl⟩
  | some name =>
    cases hlookup : a.userLookup name with
    | error e => exact Or.inr (Or.inl ⟨name, e, rfl, hlookup, by simp only [hlookup]⟩)
    | ok user =>
      by_cases hvalid : validUint32 user.Uid.toList
      · refine Or.inr (Or.inr (Or.inr ⟨name, user, rfl, hlookup, hvalid, ?_⟩))
        have hle : ¬ (decimalValue user.Uid.toList > maxUint32) := by
          have := hvalid.2.2
          unfold maxUint32
          omega
        have hmod : decimalValue user.Uid.toList % 2 ^ 32 = decimalValue user.Uid.toList :=
          Nat.mod_eq_of_lt (by have := hvalid.2.2; omega)
        simp only [hlookup, parseUintIntSize_valid w _ hvalid, hle, if_false, hmod]
      · refine Or.inr (Or.inr (Or.inl ⟨name, user, rfl, hlookup, hvalid, ?_⟩))
        rcases parseUintIntSize_invalid w _ hvalid with ⟨v, e, he⟩ | ⟨v, hv, hgt⟩
        · left
          simp only [hlookup, he]
        · right
          exact ⟨v, by simp only [hlookup, hv, hgt, if_true]⟩

/-- The result of `IsAllowedFromContext` from the result of its body. -/
theorem IsAllowedFromContext_of_body (w : WordSize) (env : Env) (a : Authorizer)
    (ctx : Context) (action : Action) (trace : List CtxEvent) (err : Option String)
    (h : IsAllowedFromContextBody w env a ctx action = (trace, .done err)) :
    IsAllowedFromContext w env a ctx action
      = (trace, .done (decorateOnError "permission denied" err)) := by
  simp only [IsAllowedFromContext, h]

/-- C12: for every action, the sentinel included, `IsAllowedFromContext` returns a non-nil
error when the context carries no gRPC peer, or a peer whose `AuthInfo` is not a
`peerCredsInfo`; its trace is empty: no user lookup, no stat read, no authority call. -/
theorem IsAllowedFromContext_no_creds (w : WordSize) (env : Env) (a : Authorizer)
    (ctx : Context) (action : Action) (h : ctx.peer = none ∨ ctx.peer = some .other) :
    ∃ msg, IsAllowedFromContext w env a ctx action = ([], .done (some msg)) := by
  rcases IsAllowedFromContextBody_no_creds w env a ctx action h with hb | hb
  · exact ⟨_, IsAllowedFromContext_of_body w env a ctx action _ _ hb⟩
  · exact ⟨_, IsAllowedFromContext_of_body w env a ctx action _ _ hb⟩

/-- Witness of C12: the sentinel action is refused when the context has no peer. -/
theorem IsAllowedFromContext_no_creds_witness :
    ∃ msg, IsAllowedFromContext .w64 envBash (authorizerAlice "1000")
      { peer := none, userName := some "alice" } ActionAlwaysAllowed
        = ([], .done (some msg)) :=
  IsAllowedFromContext_no_creds .w64 envBash (authorizerAlice "1000")
    { peer := none, userName := some "alice" } ActionAlwaysAllowed (Or.inl rfl)

/-- C13: for a self/other action and a context with valid peer credentials,
`IsAllowedFromContext` returns a non-nil error when the context has no string under
`OnUserKey`, and when the user lookup fails for the name supplied; the trace is empty in the
first case and holds the lookup only in the second: the authority is not called. -/
theorem IsAllowedFromContext_target_user_missing (w : WordSize) (env : Env) (a : Authorizer)
    (ctx : Context) (action : Action) (pci : peerCredsInfo)
    (hpeer : ctx.peer = some (.creds pci))
    (hself : action.SelfID ≠ "") (hother : action.OtherID ≠ "") :
    (ctx.userName = none →
      ∃ msg, IsAllowedFromContext w env a ctx action = ([], .done (some msg))) ∧
    (∀ name e, ctx.userName = some name → a.userLookup name = .error e →
      ∃ msg, IsAllowedFromContext w env a ctx action
        = ([.userLookup name], .done (some msg))) := by
  have _ := hother
  constructor
  · intro hname
    rcases IsAllowedFromContextBody_self w env a ctx action pci hpeer hself with
      ⟨_, hb⟩ | ⟨name, e, hn, _, _⟩ | ⟨name, user, hn, _, _, _⟩ | ⟨name, user, hn, _, _, _⟩
    · exact ⟨_, IsAllowedFromContext_of_body w env a ctx action _ _ hb⟩
    · rw [hname] at hn; cases hn
    · rw [hname] at hn; cases hn
    · rw [hname] at hn; cases hn
  · intro name e hname hlookup
    rcases IsAllowedFromContextBody_self w env a ctx action pci hpeer hself with
      ⟨hn, _⟩ | ⟨name2, e2, hn, _, hb⟩ | ⟨name2, user, hn, hl, _, _⟩ |
      ⟨name2, user, hn, hl, _, _⟩
    · rw [hname] at hn; cases hn
    · rw [hname] at hn; cases hn
      exact ⟨_, IsAllowedFromContext_of_body w env a ctx action _ _ hb⟩
    · rw [hname] at hn; cases hn; rw [hlookup] at hl; cases hl
    · rw [hname] at hn; cases hn; rw [hlookup] at hl; cases hl

/-- Witness of C13: user 1000 acting on a user without naming it, and on `bob`, who is not
in the user database. -/
theorem IsAllowedFromContext_target_user_missing_witness :
    (∃ msg, IsAllowedFromContext .w64 envBash (authorizerAlice "1000") ctxAnonymous actionRead
      = ([], .done (some msg))) ∧
    (∃ msg, IsAllowedFromContext .w64 envBash (authorizerAlice "1000")
        { peer := some (.creds { uid := 1000, pid := 42 }), userName := some "bob" } actionRead
      = ([.userLookup "bob"], .done (some msg))) :=
  ⟨(IsAllowedFromContext_target_user_missing .w64 envBash (authorizerAlice "1000") ctxAnonymous
      actionRead { uid := 1000, pid := 42 } rfl (by decide) (by decide)).1 rfl,
   (IsAllowedFromContext_target_user_missing .w64 envBash (authorizerAlice "1000")
      { peer := some (.creds { uid := 1000, pid := 42 }), userName := some "bob" }
      actionRead { uid := 1000, pid := 42 } rfl (by decide) (by decide)).2
      "bob" "user: unknown user" rfl rfl⟩

/-- A uid string that does not fit in 32 bits stops the check after the lookup. -/
theorem IsAllowedFromContext_uid_invalid (w : WordSize) (env : Env) (a : Authorizer)
    (ctx : Context) (action : Action) (pci : peerCredsInfo) (name : String) (user : User)
    (hpeer : ctx.peer = some (.creds pci)) (hself : action.SelfID ≠ "")
    (hname : ctx.userName = some name) (hlookup : a.userLookup name = .ok user)
    (hbad : ¬ validUint32 user.Uid.toList) :
    ∃ msg, IsAllowedFromContext w env a ctx action = ([.userLookup name], .done (some msg)) := by
  rcases IsAllowedFromContextBody_self w env a ctx action pci hpeer hself with
    ⟨hn, _⟩ | ⟨name2, e2, hn, hl, _⟩ | ⟨name2, user2, hn, hl, _, hb⟩ |
    ⟨name2, user2, hn, hl, hv, _⟩
  · rw [hname] at hn; cases hn
  · rw [hname] at hn; cases hn; rw [hlookup] at hl; cases hl
  · rw [hname] at hn; cases hn
    rcases hb with hb | ⟨v, hb⟩
    · exact ⟨_, IsAllowedFromContext_of_body w env a ctx action _ _ hb⟩
    · exact ⟨_, IsAllowedFromContext_of_body w env a ctx action _ _ hb⟩
  · rw [hname] at hn; cases hn; rw [hlookup] at hl; cases hl
    exact absurd hv hbad

/-- A uid string that fits in 32 bits is passed to `isAllowed` as its value. -/
theorem IsAllowedFromContext_uid_valid (w : WordSize) (env : Env) (a : Authorizer)
    (ctx : Context) (action : Action) (pci : peerCredsInfo) (name : String) (user : User)
    (hpeer : ctx.peer = some (.creds pci)) (hself : action.SelfID ≠ "")
    (hname : ctx.userName = some name) (hlookup : a.userLookup name = .ok user)
    (hvalid : validUint32 user.Uid.toList) :
    IsAllowedFromContext w env a ctx action =
      (.userLookup name ::
          (isAllowed env a action pci.pid pci.uid (decimalValue user.Uid.toList)).1.map .gate,
        match (isAllowed env a action pci.pid pci.uid (decimalValue user.Uid.toList)).2 with
        | .panic => .panic
        | .done err => .done (decorateOnError "permission denied" err)) := by
  rcases IsAllowedFromContextBody_self w env a ctx action pci hpeer hself with
    ⟨hn, _⟩ | ⟨name2, e2, hn, hl, _⟩ | ⟨name2, user2, hn, hl, hbad, _⟩ |
    ⟨name2, user2, hn, hl, _, hb⟩
  · rw [hname] at hn; cases hn
  · rw [hname] at hn; cases hn; rw [hlookup] at hl; cases hl
  · rw [hname] at hn; cases hn; rw [hlookup] at hl; cases hl
    exact absurd hvalid hbad
  · rw [hname] at hn; cases hn; rw [hlookup] at hl; cases hl
    simp only [IsAllowedFromContext, hb]

/-- C14: for a self/other action whose target user is found, the conversion of the uid is
exact and range-checked. When the `Uid` string is the decimal representation of
`n ≤ 2^32 - 1`, the check is `isAllowed` with target uid exactly `n`; when it is the
representation of `n > 2^32 - 1`, or is not a non-empty string of digits,
`IsAllowedFromContext` returns a non-nil error after the lookup. -/
theorem IsAllowedFromContext_target_uid (w : WordSize) (env : Env) (a : Authorizer)
    (ctx : Context) (action : Action) (pci : peerCredsInfo) (name : String) (user : User)
    (hpeer : ctx.peer = some (.creds pci))
    (hself : action.SelfID ≠ "") (hother : action.OtherID ≠ "")
    (hname : ctx.userName = some name) (hlookup : a.userLookup name = .ok user) :
    (∀ n, user.Uid.toList = decimalRepr n → n ≤ 2 ^ 32 - 1 →
      IsAllowedFromContext w env a ctx action =
        (.userLookup name :: (isAllowed env a action pci.pid pci.uid n).1.map .gate,
          match (isAllowed env a action pci.pid pci.uid n).2 with
          | .panic => .panic
          | .done err => .done (decorateOnError "permission denied" err))) ∧
    (∀ n, user.Uid.toList = decimalRepr n → n > 2 ^ 32 - 1 →
      ∃ msg, IsAllowedFromContext w env a ctx action
        = ([.userLookup name], .done (some msg))) ∧
    (¬ (user.Uid.toList ≠ [] ∧ ∀ c ∈ user.Uid.toList, isDigitByte c) →
      ∃ msg, IsAllowedFromContext w env a ctx action
        = ([.userLookup name], .done (some msg))) := by
  have _ := hother
  refine ⟨fun n hrepr hn => ?_, fun n hrepr hn => ?_, fun hbad => ?_⟩
  · obtain ⟨h1, h2, h3⟩ := decimalRepr_digits n
    have hvalid : validUint32 user.Uid.toList := by
      rw [hrepr]
      exact ⟨h1, h2, by rw [h3]; exact hn⟩
    have hval : decimalValue user.Uid.toList = n := by rw [hrepr]; exact h3
    rw [IsAllowedFromContext_uid_valid w env a ctx action pci name user hpeer hself hname
      hlookup hvalid, hval]
  · apply IsAllowedFromContext_uid_invalid w env a ctx action pci name user hpeer hself hname
      hlookup
    rintro ⟨_, _, hv⟩
    rw [hrepr, (decimalRepr_digits n).2.2] at hv
    omega
  · apply IsAllowedFromContext_uid_invalid w env a ctx action pci name user hpeer hself hname
      hlookup
    rintro ⟨h1, h2, _⟩
    exact hbad ⟨h1, h2⟩

/-- Witness of C14: `alice` has uid 1000, the caller too: the authority is asked for
`self.read`, the id of the action on oneself. -/
theorem IsAllowedFromContext_target_uid_witness :
    IsAllowedFromContext .w64 envBash (authorizerAlice "1000") ctxOnAlice actionRead =
      ([.userLookup "alice", .gate (.openStat "/proc/42/stat"),
        .gate (.authorityCall (mkCallArgs (mkSubject 42 123456 1000) "self.read"))],
       .done none) :=
  (IsAllowedFromContext_target_uid .w64 envBash (authorizerAlice "1000") ctxOnAlice actionRead
    { uid := 1000, pid := 42 } "alice" { Uid := "1000" } rfl (by decide) (by decide) rfl rfl).1
    1000 (by rfl) (by norm_num)

/-- C17: target-user resolution comes before the fast path. For every caller uid, 0
included, and every self/other action, `IsAllowedFromContext` fails when the user name is
absent, when the lookup fails, and when the uid string does not fit in 32 bits; a nil result
implies that the resolution succeeded, and for caller uid 0 the fast path is what follows a
successful resolution. -/
theorem IsAllowedFromContext_resolution_first (w : WordSize) (env : Env) (a : Authorizer)
    (ctx : Context) (action : Action) (pci : peerCredsInfo)
    (hpeer : ctx.peer = some (.creds pci))
    (hself : action.SelfID ≠ "") (hother : action.OtherID ≠ "") :
    (ctx.userName = none →
      ∃ msg, IsAllowedFromContext w env a ctx action = ([], .done (some msg))) ∧
    (∀ name e, ctx.userName = some name → a.userLookup name = .error e →
      ∃ msg, IsAllowedFromContext w env a ctx action
        = ([.userLookup name], .done (some msg))) ∧
    (∀ name user, ctx.userName = some name → a.userLookup name = .ok user →
      ¬ validUint32 user.Uid.toList →
      ∃ msg, IsAllowedFromContext w env a ctx action
        = ([.userLookup name], .done (some msg))) ∧
    ((IsAllowedFromContext w env a ctx action).2 = .done none →
      ∃ name user, ctx.userName = some name ∧ a.userLookup name = .ok user ∧
        validUint32 user.Uid.toList) ∧
    (pci.uid = 0 → ∀ name user, ctx.userName = some name → a.userLookup name = .ok user →
      validUint32 user.Uid.toList →
      IsAllowedFromContext w env a ctx action = ([.userLookup name], .done none)) := by
  have _ := hother
  have hbody := IsAllowedFromContextBody_self w env a ctx action pci hpeer hself
  refine ⟨fun hname => ?_, fun name e hname hlookup => ?_, fun name user hname hlookup hbad => ?_,
    fun hnil => ?_, fun huid name user hname hlookup hvalid => ?_⟩
  · rcases hbody with ⟨_, hb⟩ | ⟨name, e, hn, _, _⟩ | ⟨name, user, hn, _, _, _⟩ |
      ⟨name, user, hn, _, _, _⟩
    · exact ⟨_, IsAllowedFromContext_of_body w env a ctx action _ _ hb⟩
    · rw [hname] at hn; cases hn
    · rw [hname] at hn; cases hn
    · rw [hname] at hn; cases hn
  · rcases hbody with ⟨hn, _⟩ | ⟨name2, e2, hn, _, hb⟩ | ⟨name2, user, hn, hl, _, _⟩ |
      ⟨name2, user, hn, hl, _, _⟩
    · rw [hname] at hn; cases hn
    · rw [hname] at hn; cases hn
      exact ⟨_, IsAllowedFromContext_of_body w env a ctx action _ _ hb⟩
    · rw [hname] at hn; cases hn; rw [hlookup] at hl; cases hl
    · rw [hname] at hn; cases hn; rw [hlookup] at hl; cases hl
  · exact IsAllowedFromContext_uid_invalid w env a ctx action pci name user hpeer hself hname
      hlookup hbad
  · rcases hbody with ⟨_, hb⟩ | ⟨name, e, _, _, hb⟩ | ⟨name, user, _, _, _, hb⟩ |
      ⟨name, user, hn, hl, hv, _⟩
    · rw [IsAllowedFromContext_of_body w env a ctx action _ _ hb] at hnil
      simp [decorateOnError] at hnil
    · rw [IsAllowedFromContext_of_body w env a ctx action _ _ hb] at hnil
      simp [decorateOnError] at hnil
    · rcases hb with hb | ⟨v, hb⟩
      · rw [IsAllowedFromContext_of_body w env a ctx action _ _ hb] at hnil
        simp [decorateOnError] at hnil
      · rw [IsAllowedFromContext_of_body w env a ctx action _ _ hb] at hnil
        simp [decorateOnError] at hnil
    · exact ⟨name, user, hn, hl, hv⟩
  · rw [IsAllowedFromContext_uid_valid w env a ctx action pci name user hpeer hself hname
      hlookup hvalid, huid, isAllowed_uid_zero]
    rfl

/-- Witness of C17: the administrator (uid 0) acting on a user without naming it is
refused, and is let through by the fast path once `alice` is resolved. -/
theorem IsAllowedFromContext_resolution_first_witness :
    (∃ msg, IsAllowedFromContext .w64 envBash (authorizerAlice "1000") ctxRootAnonymous
      actionRead = ([], .done (some msg))) ∧
    IsAllowedFromContext .w64 envBash (authorizerAlice "1000") ctxRootOnAlice actionRead
      = ([.userLookup "alice"], .done none) :=
  ⟨(IsAllowedFromContext_resolution_first .w64 envBash (authorizerAlice "1000")
      ctxRootAnonymous actionRead { uid := 0, pid := 1 } rfl (by decide) (by decide)).1 rfl,
   (IsAllowedFromContext_resolution_first .w64 envBash (authorizerAlice "1000")
      ctxRootOnAlice actionRead { uid := 0, pid := 1 } rfl (by decide) (by decide)).2.2.2.2
      rfl "alice" { Uid := "1000" } rfl rfl (by decide)⟩

/-! ## The public entry point: the error messages -/

/-- An error of the parser starts with the text of its deferred decoration. -/
theorem getStartTimeFromReader_error_form (env : Env) (f : Bytes × Option String) (t : Nat)
    (err : String) (h : getStartTimeFromReader env f = .done (t, some err)) :
    ∃ e, err = "can't determine start time of client process: " ++ e := by
  obtain ⟨v, e0, hb, _⟩ := getStartTimeBody_done env f
  simp only [getStartTimeFromReader, hb] at h
  cases e0 with
  | none => simp [decorateOnError] at h
  | some e =>
    simp only [decorateOnError, Exec.done.injEq, Prod.mk.injEq, Option.some.injEq] at h
    refine ⟨e, ?_⟩
    rw [← h.2, String.append_assoc]
    rfl

/-- Every error of `isAllowed` is one of its four causes. -/
theorem isAllowed_error_cause (env : Env) (a : Authorizer) (action : Action) (pid : Int)
    (uid actionUID : Nat) (cause : String)
    (h : (isAllowed env a action pid uid actionUID).2 = .done (some cause)) :
    gateCause cause := by
  by_cases huid : uid = 0
  · subst huid
    rw [isAllowed_uid_zero] at h
    simp at h
  by_cases hact : action = ActionAlwaysAllowed
  · subst hact
    rw [isAllowed_always_allowed env a pid uid actionUID huid] at h
    simp at h
  rcases isAllowed_slow_path env a action pid uid actionUID huid hact with
    ⟨e, _, hr⟩ | ⟨f, _, _, hr⟩ | ⟨f, t, err, _, hp, hr⟩ | ⟨f, t, _, _, hr⟩
  · rw [hr] at h
    simp only [Exec.done.injEq, Option.some.injEq] at h
    exact Or.inl ⟨e, h.symm⟩
  · rw [hr] at h
    simp at h
  · rw [hr] at h
    simp only [Exec.done.injEq, Option.some.injEq] at h
    obtain ⟨e, he⟩ := getStartTimeFromReader_error_form env f t err hp
    exact Or.inr (Or.inl ⟨e, by rw [← h, he]⟩)
  · rw [hr] at h
    simp only at h
    cases herr : (a.authority (mkCallArgs (mkSubject pid t uid)
        (resolveAction action uid actionUID).ID)).err with
    | some e =>
      simp only [herr, Exec.done.injEq, Option.some.injEq] at h
      exact Or.inr (Or.inr (Or.inl ⟨e, h.symm⟩))
    | none =>
      cases hauth : (a.authority (mkCallArgs (mkSubject pid t uid)
          (resolveAction action uid actionUID).ID)).result.IsAuthorized with
      | true => simp [herr, hauth] at h
      | false =>
        simp only [herr, hauth, Bool.false_eq_true, if_false, Exec.done.injEq,
          Option.some.injEq] at h
        exact Or.inr (Or.inr (Or.inr h.symm))

/-- Every error of the body of `IsAllowedFromContext` is one of the causes of the check. -/
theorem IsAllowedFromContextBody_error_cause (w : WordSize) (env : Env) (a : Authorizer)
    (ctx : Context) (action : Action) (cause : String)
    (h : (IsAllowedFromContextBody w env a ctx action).2 = .done (some cause)) :
    checkCause env cause := by
  cases hpeer : ctx.peer with
  | none =>
    rcases IsAllowedFromContextBody_no_creds w env a ctx action (Or.inl hpeer) with hb | hb
    · rw [hb] at h
      simp only [Exec.done.injEq, Option.some.injEq] at h
      exact Or.inl h.symm
    · rw [hb] at h
      simp only [Exec.done.injEq, Option.some.injEq] at h
      exact Or.inr (Or.inl h.symm)
  | some info =>
    cases info with
    | other =>
      rcases IsAllowedFromContextBody_no_creds w env a ctx action (Or.inr hpeer) with hb | hb
      · rw [hb] at h
        simp only [Exec.done.injEq, Option.some.injEq] at h
        exact Or.inl h.symm
      · rw [hb] at h
        simp only [Exec.done.injEq, Option.some.injEq] at h
        exact Or.inr (Or.inl h.symm)
    | creds pci =>
      by_cases hself : action.SelfID = ""
      · rw [IsAllowedFromContextBody_plain w env a ctx action pci hpeer hself] at h
        exact Or.inr (Or.inr (Or.inr (Or.inr (Or.inr (Or.inr
          (isAllowed_error_cause env a action pci.pid pci.uid 0 cause h))))))
      · rcases IsAllowedFromContextBody_self w env a ctx action pci hpeer hself with
          ⟨_, hb⟩ | ⟨name, e, _, _, hb⟩ | ⟨name, user, _, _, _, hb⟩ |
          ⟨name, user, _, _, _, hb⟩
        · rw [hb] at h
          simp only [Exec.done.injEq, Option.some.injEq] at h
          exact Or.inr (Or.inr (Or.inl h.symm))
        · rw [hb] at h
          simp only [Exec.done.injEq, Option.some.injEq] at h
          exact Or.inr (Or.inr (Or.inr (Or.inl ⟨name, e, h.symm⟩)))
        · rcases hb with hb | ⟨v, hb⟩
          · rw [hb] at h
            simp only [Exec.done.injEq, Option.some.injEq] at h
            exact Or.inr (Or.inr (Or.inr (Or.inr (Or.inl ⟨user.Uid, name, h.symm⟩))))
          · rw [hb] at h
            simp only [Exec.done.injEq, Option.some.injEq] at h
            exact Or.inr (Or.inr (Or.inr (Or.inr (Or.inr (Or.inl ⟨v, h.symm⟩)))))
        · rw [hb] at h
          exact Or.inr (Or.inr (Or.inr (Or.inr (Or.inr (Or.inr
            (isAllowed_error_cause env a action pci.pid pci.uid _ cause h))))))

/-- C15: every non-nil error returned by `IsAllowedFromContext` has a message made of
`permission denied: ` followed by the message of its cause, which is one of: missing peer,
peer of another type, missing user name, unknown user, uid not a number, uid too large, stat
file not opened, stat parse error, authority call failure, authority denial. -/
theorem IsAllowedFromContext_error_message (w : WordSize) (env : Env) (a : Authorizer)
    (ctx : Context) (action : Action) (msg : String)
    (h : (IsAllowedFromContext w env a ctx action).2 = .done (some msg)) :
    ∃ cause, msg = "permission denied: " ++ cause ∧
      (IsAllowedFromContextBody w env a ctx action).2 = .done (some cause) ∧
      checkCause env cause := by
  simp only [IsAllowedFromContext] at h
  cases hb : (IsAllowedFromContextBody w env a ctx action).2 with
  | panic => rw [hb] at h; simp at h
  | done err =>
    rw [hb] at h
    cases err with
    | none => simp [decorateOnError] at h
    | some cause =>
      simp only [decorateOnError, Exec.done.injEq, Option.some.injEq] at h
      refine ⟨cause, ?_, rfl, IsAllowedFromContextBody_error_cause w env a ctx action cause hb⟩
      rw [← h, String.append_assoc]
      rfl

/-- Witness of C15: the message returned when the stat file of the caller is missing. -/
theorem IsAllowedFromContext_error_message_witness :
    ∃ cause, "permission denied: couldn't open stat file for process: no such file"
        = "permission denied: " ++ cause ∧
      (IsAllowedFromContextBody .w64 envNoFiles (authorizerAlice "1000") ctxAnonymous
        actionPlain).2 = .done (some cause) ∧
      checkCause envNoFiles cause :=
  IsAllowedFromContext_error_message .w64 envNoFiles (authorizerAlice "1000") ctxAnonymous
    actionPlain "permission denied: couldn't open stat file for process: no such file"
    (by decide)

/-! ## The refresh timer -/

/-- Adding 384 nanoseconds to a time that is not in the last second of the time line moves
it by exactly 384 nanoseconds. -/
theorem timeAdd_384 (t : Time) (hlo : -(2 ^ 63) ≤ t.sec) (hhi : t.sec < 2 ^ 63 - 1)
    (h0 : 0 ≤ t.nsec) (h1 : t.nsec < 1000000000) :
    (timeAdd t 384).sec * 1000000000 + (timeAdd t 384).nsec
      = t.sec * 1000000000 + t.nsec + 384 := by
  have h63 : (2 : Int) ^ 63 = 9223372036854775808 := by norm_num
  have h64 : (2 : Int) ^ 64 = 18446744073709551616 := by norm_num
  rw [h63] at hlo hhi
  have hd : Int.tdiv 384 1000000000 = 0 := by decide
  have hm : Int.tmod 384 1000000000 = 384 := by decide
  have hw0 : wrapInt64 (t.sec + 0) = t.sec := by
    unfold wrapInt64
    rw [h63, h64]
    omega
  have hw1 : wrapInt64 (t.sec + (0 + 1)) = t.sec + 1 := by
    unfold wrapInt64
    rw [h63, h64]
    omega
  unfold timeAdd
  simp only [hd, hm]
  by_cases hc : t.nsec + 384 ≥ 1000000000
  · have hs : addSec t.sec (0 + 1) = t.sec + 1 := by
      unfold addSec
      simp only [hw1]
      have : (t.sec + 1 > t.sec ↔ (0 + 1 : Int) > 0) := by constructor <;> intro _ <;> omega
      rw [if_pos this]
    simp only [hc, if_true, hs]
    ring
  · have hn : ¬ (t.nsec + 384 < 0) := by omega
    have hs : addSec t.sec 0 = t.sec := by
      unfold addSec
      simp only [hw0]
      have : (t.sec > t.sec ↔ (0 : Int) > 0) := by constructor <;> intro _ <;> omega
      rw [if_pos this]
    simp only [hc, if_false, hn, hs]
    ring

/-- C18: the multiplication by 1000 wraps around before the range check. For a timer value
of 18446744073709552 microseconds the product does not fit in a signed 64-bit duration, yet
`nextRefreshTime` returns no error and the start time moved by `Add` of 384 nanoseconds, the
product modulo `2^64`: exactly 384 nanoseconds later for every start time that is not in the
last second of the time line, as for the boot time of the example. -/
theorem nextRefreshTime_wraps (start : Time) :
    nextRefreshTime (some start) (.ok (.uint64 18446744073709552))
      = (some (timeAdd start 384), none) ∧
    (-(2 ^ 63) ≤ start.sec → start.sec < 2 ^ 63 - 1 → 0 ≤ start.nsec →
      start.nsec < 1000000000 →
      (timeAdd start 384).sec * 1000000000 + (timeAdd start 384).nsec
        = start.sec * 1000000000 + start.nsec + 384) ∧
    nextRefreshTime (some bootTime) (.ok (.uint64 18446744073709552))
      = (some { sec := 63900000000, nsec := 389 }, none) ∧
    18446744073709552 < 2 ^ 64 ∧
    ¬ (18446744073709552 * 1000 ≤ maxInt64) ∧
    (18446744073709552 * 1000) % 2 ^ 64 = 384 := by
  have hcode : ∀ t : Time, nextRefreshTime (some t) (.ok (.uint64 18446744073709552))
      = (some (timeAdd t 384), none) := by
    intro t
    simp only [nextRefreshTime, nextRefreshTimeBody, decorateOnError]
    have h1 : (18446744073709552 * 1000) % 2 ^ 64 = 384 := by norm_num
    have h2 : ¬ (384 > maxInt64) := by norm_num [maxInt64]
    simp only [h1, h2, if_false]
    rfl
  refine ⟨hcode start, timeAdd_384 start, ?_, by norm_num, by norm_num [maxInt64],
    by norm_num⟩
  rw [hcode bootTime]
  decide

/-! ## The parser against its reference definition -/

/-- The model of `strings.Split` is the library split of lists. -/
theorem stringsSplit_eq_splitOn (sep : Char) (s : Bytes) :
    stringsSplit sep s = List.splitOn sep s := by
  induction s with
  | nil => rfl
  | cons c cs ih =>
    have hne := stringsSplit_ne_nil sep cs
    unfold List.splitOn at ih ⊢
    rw [List.splitOnP_cons, stringsSplit]
    by_cases hc : c = sep
    · simp [hc, ← ih]
    · have hbeq : (c == sep) = false := by simpa using hc
      simp only [hc, if_false, hbeq, Bool.false_eq_true, ← ih]
      cases hsplit : stringsSplit sep cs with
      | nil => exact absurd hsplit hne
      | cons t ts => rfl

/-- A list that holds `c` splits at the first `c`. -/
theorem exists_first_occurrence (c : Char) (s : Bytes) (h : c ∈ s) :
    ∃ pre post, s = pre ++ c :: post ∧ c ∉ pre := by
  induction s with
  | nil => exact absurd h (List.not_mem_nil c)
  | cons b bs ih =>
    by_cases hb : b = c
    · exact ⟨[], bs, by simp [hb], List.not_mem_nil c⟩
    · have hmem : c ∈ bs := by
        rcases List.mem_cons.mp h with h | h
        · exact absurd h.symm hb
        · exact h
      obtain ⟨pre, post, hs, hpre⟩ := ih hmem
      refine ⟨b :: pre, post, by simp [hs], ?_⟩
      simp only [List.mem_cons, not_or]
      exact ⟨fun hcb => hb hcb.symm, hpre⟩

theorem indexOf_first_occurrence (c : Char) (pre post : Bytes) (h : c ∉ pre) :
    List.indexOf c (pre ++ c :: post) = pre.length := by
  rw [List.indexOf_append_of_not_mem h, List.indexOf_cons_self]
  rfl

/-- The reference definition on a record whose first `)` is followed by two bytes or more. -/
theorem startTimeReference_after_paren (pre rest : Bytes) (sp : Char) (h : ')' ∉ pre) :
    startTimeReference (pre ++ ')' :: sp :: rest) =
      if 20 ≤ (List.splitOn ' ' rest).length ∧ validUint64 ((List.splitOn ' ' rest).getD 19 [])
      then some (decimalValue ((List.splitOn ' ' rest).getD 19 [])) else none := by
  have hmem : ')' ∈ pre ++ ')' :: sp :: rest := by simp
  have hlen : pre.length + 2 ≤ (pre ++ ')' :: sp :: rest).length := by
    simp only [List.length_append, List.length_cons]
    omega
  have hdrop : List.drop (pre.length + 2) (pre ++ ')' :: sp :: rest) = rest := by
    rw [List.drop_append]
    rfl
  unfold startTimeReference
  simp only [hmem, if_true, indexOf_first_occurrence ')' pre (sp :: rest) h, hlen, hdrop]

/-- The reference definition on a record whose first `)` is its last byte. -/
theorem startTimeReference_paren_last (pre : Bytes) (h : ')' ∉ pre) :
    startTimeReference (pre ++ [')']) = none := by
  have hmem : ')' ∈ pre ++ [')'] := by simp
  have hlen : ¬ (pre.length + 2 ≤ (pre ++ [')']).length) := by
    simp only [List.length_append, List.length_cons, List.length_nil]
    omega
  unfold startTimeReference
  simp only [hmem, if_true, indexOf_first_occurrence ')' pre [] h, hlen, if_false]

/-- The parser on a record whose first `)` is followed by two bytes or more, in the terms of
the reference definition. -/
theorem getStartTimeFromReader_after_paren (env : Env) (pre rest : Bytes) (sp : Char)
    (h : ')' ∉ pre) :
    (20 ≤ (List.splitOn ' ' rest).length ∧ validUint64 ((List.splitOn ' ' rest).getD 19 []) →
      getStartTimeFromReader env (pre ++ ')' :: sp :: rest, none)
        = .done (decimalValue ((List.splitOn ' ' rest).getD 19 []), none)) ∧
    (¬ (20 ≤ (List.splitOn ' ' rest).length ∧
        validUint64 ((List.splitOn ' ' rest).getD 19 [])) →
      ∃ msg, getStartTimeFromReader env (pre ++ ')' :: sp :: rest, none)
        = .done (0, some msg)) := by
  have hbody := getStartTimeBody_after_paren env pre rest sp h
  rw [stringsSplit_eq_splitOn] at hbody
  constructor
  · rintro ⟨hlen, hvalid⟩
    have hlt : ¬ ((List.splitOn ' ' rest).length < 20) := by omega
    have hidx : indexAt (List.splitOn ' ' rest) 19
        = some ((List.splitOn ' ' rest).getD 19 []) := by
      unfold indexAt
      rw [List.getD_eq_getElem?_getD, List.getElem?_eq_getElem (by omega)]
      rfl
    rw [getStartTimeFromReader, hbody, if_neg hlt, hidx]
    simp only [parseUint_valid _ hvalid, decorateOnError]
  · intro hbad
    by_cases hlt : (List.splitOn ' ' rest).length < 20
    · exact ⟨_, by rw [getStartTimeFromReader, hbody, if_pos hlt]; rfl⟩
    · have hidx : indexAt (List.splitOn ' ' rest) 19
          = some ((List.splitOn ' ' rest).getD 19 []) := by
        unfold indexAt
        rw [List.getD_eq_getElem?_getD, List.getElem?_eq_getElem (by omega)]
        rfl
      have hinvalid : ¬ validUint64 ((List.splitOn ' ' rest).getD 19 []) :=
        fun hv => hbad ⟨by omega, hv⟩
      obtain ⟨v, e, he⟩ := parseUint_invalid _ hinvalid
      exact ⟨_, by rw [getStartTimeFromReader, hbody, if_neg hlt, hidx]; simp only [he]; rfl⟩

/-- The parser agrees with the reference definition on every input. -/
theorem getStartTimeFromReader_eq_reference (env : Env) (s : Bytes) :
    (∀ v, startTimeReference s = some v →
      getStartTimeFromReader env (s, none) = .done (v, none)) ∧
    (startTimeReference s = none →
      ∃ msg, getStartTimeFromReader env (s, none) = .done (0, some msg)) := by
  by_cases hmem : ')' ∈ s
  · obtain ⟨pre, post, rfl, hpre⟩ := exists_first_occurrence ')' s hmem
    cases post with
    | nil =>
      rw [startTimeReference_paren_last pre hpre]
      refine ⟨fun v hv => (by cases hv), fun _ => ?_⟩
      exact ⟨_, by rw [getStartTimeFromReader, getStartTimeBody_paren_last env _ hpre]; rfl⟩
    | cons sp rest =>
      rw [startTimeReference_after_paren pre rest sp hpre]
      obtain ⟨hgood, hbad⟩ := getStartTimeFromReader_after_paren env pre rest sp hpre
      by_cases hc : 20 ≤ (List.splitOn ' ' rest).length ∧
          validUint64 ((List.splitOn ' ' rest).getD 19 [])
      · rw [if_pos hc]
        refine ⟨fun v hv => ?_, fun hnone => by cases hnone⟩
        cases hv
        exact hgood hc
      · rw [if_neg hc]
        exact ⟨fun v hv => (by cases hv), fun _ => hbad hc⟩
  · have href : startTimeReference s = none := by
      unfold startTimeReference
      rw [if_neg hmem]
    rw [href]
    refine ⟨fun v hv => (by cases hv), fun _ => ?_⟩
    exact ⟨_, by rw [getStartTimeFromReader, getStartTimeBody_no_paren env _ hmem]; rfl⟩

/-- C19: the parser is its reference definition. For every input `s` the parser returns a
value `v` without error exactly when `s` holds a `)`, two bytes or more follow up to the end
counted from the first `)`, the split on spaces of what follows those two bytes has at least
20 elements and element 19 is a non-empty string of digits with value `v` below `2^64`
(`startTimeReference s = some v`); otherwise it returns 0 and an error. The result depends
only on the bytes after the first `)`. -/
theorem getStartTimeFromReader_refines_reference (env : Env) (s : Bytes) :
    (∀ v, getStartTimeFromReader env (s, none) = .done (v, none) ↔
      startTimeReference s = some v) ∧
    (startTimeReference s = none →
      ∃ msg, getStartTimeFromReader env (s, none) = .done (0, some msg)) ∧
    (∀ pre pre2 rest : Bytes, ')' ∉ pre → ')' ∉ pre2 →
      getStartTimeFromReader env (pre ++ ')' :: rest, none)
        = getStartTimeFromReader env (pre2 ++ ')' :: rest, none)) := by
  obtain ⟨hsome, hnone⟩ := getStartTimeFromReader_eq_reference env s
  refine ⟨fun v => ⟨fun h => ?_, hsome v⟩, hnone, fun pre pre2 rest h1 h2 => ?_⟩
  · cases href : startTimeReference s with
    | none =>
      obtain ⟨msg, hmsg⟩ := hnone href
      rw [hmsg] at h
      simp at h
    | some v2 =>
      rw [hsome v2 href] at h
      simp only [Exec.done.injEq, Prod.mk.injEq, and_true] at h
      rw [h]
  · cases rest with
    | nil =>
      rw [getStartTimeFromReader, getStartTimeFromReader,
        getStartTimeBody_paren_last env pre h1, getStartTimeBody_paren_last env pre2 h2]
    | cons sp r =>
      rw [getStartTimeFromReader, getStartTimeFromReader,
        getStartTimeBody_after_paren env pre r sp h1,
        getStartTimeBody_after_paren env pre2 r sp h2]

/-! ## Self/other handling -/

/-- For an action with a `SelfID`, `isAllowed` does not read the `ID` it is given. -/
theorem isAllowed_ignores_id (env : Env) (a : Authorizer) (action : Action) (id : String)
    (pid : Int) (uid actionUID : Nat) (hself : action.SelfID ≠ "") :
    isAllowed env a { action with ID := id } pid uid actionUID
      = isAllowed env a action pid uid actionUID := by
  have h1 : ({ action with ID := id } : Action) ≠ ActionAlwaysAllowed := by
    intro h
    exact hself (congrArg Action.SelfID h)
  have h2 : action ≠ ActionAlwaysAllowed := by
    intro h
    exact hself (congrArg Action.SelfID h)
  have hres : resolveAction { action with ID := id } uid actionUID
      = resolveAction action uid actionUID := by
    unfold resolveAction
    by_cases h : actionUID = uid <;> simp [hself, h]
  unfold isAllowed
  simp only [h1, h2, if_false, hres]

/-- The user lookup of the authorizer is not read by `isAllowed`. -/
theorem isAllowed_ignores_lookup (env : Env) (a a2 : Authorizer) (action : Action) (pid : Int)
    (uid actionUID : Nat) (hauth : a2.authority = a.authority) (hroot : a2.root = a.root) :
    isAllowed env a2 action pid uid actionUID = isAllowed env a action pid uid actionUID := by
  unfold isAllowed
  simp only [statPath, hauth, hroot]

/-- For an action without `SelfID`, `IsAllowedFromContext` reads neither the user name of
the context nor the user lookup. -/
theorem IsAllowedFromContext_plain_independent (w : WordSize) (env : Env) (a a2 : Authorizer)
    (ctx ctx2 : Context) (action : Action) (hself : action.SelfID = "")
    (hpeer : ctx2.peer = ctx.peer) (hauth : a2.authority = a.authority)
    (hroot : a2.root = a.root) :
    IsAllowedFromContext w env a2 ctx2 action = IsAllowedFromContext w env a ctx action := by
  have hbody : IsAllowedFromContextBody w env a2 ctx2 action
      = IsAllowedFromContextBody w env a ctx action := by
    cases hp : ctx.peer with
    | none =>
      simp only [IsAllowedFromContextBody, hpeer, hp]
    | some info =>
      cases info with
      | other => simp only [IsAllowedFromContextBody, hpeer, hp]
      | creds pci =>
        rw [IsAllowedFromContextBody_plain w env a2 ctx2 action pci (hpeer.trans hp) hself,
          IsAllowedFromContextBody_plain w env a ctx action pci hp hself,
          isAllowed_ignores_lookup env a a2 action pci.pid pci.uid 0 hauth hroot]
  simp only [IsAllowedFromContext, hbody]

/-- C21: self/other handling is triggered by `SelfID` alone, whatever `OtherID` and `ID`
are. With peer credentials, `IsAllowedFromContext` requires a user name when `SelfID` is not
empty, and when `SelfID` is empty its result depends neither on the user name nor on the
user lookup. An authority call of `isAllowed` carries `SelfID` or `OtherID` (by the
comparison of target and caller uid) when `SelfID` is not empty, and the unchanged `ID` when
it is empty. So: (a) with a `SelfID`, an empty `OtherID` and a target other than the caller,
the id sent is empty; (b) with a `SelfID`, a pre-populated `ID` is never read. -/
theorem selfID_alone_triggers (w : WordSize) (env : Env) (a : Authorizer) (ctx : Context)
    (action : Action) (pci : peerCredsInfo) (hpeer : ctx.peer = some (.creds pci)) :
    (action.SelfID ≠ "" → ctx.userName = none →
      ∃ msg, IsAllowedFromContext w env a ctx action = ([], .done (some msg))) ∧
    (action.SelfID = "" → ∀ (ctx2 : Context) (a2 : Authorizer),
      ctx2.peer = ctx.peer → a2.authority = a.authority → a2.root = a.root →
      IsAllowedFromContext w env a2 ctx2 action = IsAllowedFromContext w env a ctx action) ∧
    (∀ (pid : Int) (uid actionUID : Nat) (args : CallArgs),
      args ∈ authorityCalls (isAllowed env a action pid uid actionUID).1 →
      (action.SelfID ≠ "" →
        args.actionID = if actionUID = uid then action.SelfID else action.OtherID) ∧
      (action.SelfID = "" → args.actionID = action.ID)) ∧
    (∀ (pid : Int) (uid actionUID : Nat) (args : CallArgs),
      action.SelfID ≠ "" → action.OtherID = "" → actionUID ≠ uid →
      args ∈ authorityCalls (isAllowed env a action pid uid actionUID).1 →
      args.actionID = "") ∧
    (action.SelfID ≠ "" → ∀ (id : String) (pid : Int) (uid actionUID : Nat),
      isAllowed env a { action with ID := id } pid uid actionUID
        = isAllowed env a action pid uid actionUID) := by
  have hid : ∀ (pid : Int) (uid actionUID : Nat) (args : CallArgs),
      args ∈ authorityCalls (isAllowed env a action pid uid actionUID).1 →
      (action.SelfID ≠ "" →
        args.actionID = if actionUID = uid then action.SelfID else action.OtherID) ∧
      (action.SelfID = "" → args.actionID = action.ID) := by
    intro pid uid actionUID args hcall
    obtain ⟨_, _, hres, _⟩ := isAllowed_call_inv env a action pid uid actionUID args hcall
    rw [hres]
    constructor
    · intro hself
      unfold resolveAction
      by_cases h : actionUID = uid <;> simp [hself, h]
    · intro hself
      simp [resolveAction, hself]
  refine ⟨fun hself hname => ?_, fun hself ctx2 a2 hp hauth hroot => ?_, hid,
    fun pid uid actionUID args hself hother hne hcall => ?_,
    fun hself id pid uid actionUID => ?_⟩
  · rcases IsAllowedFromContextBody_self w env a ctx action pci hpeer hself with
      ⟨_, hb⟩ | ⟨name, e, hn, _, _⟩ | ⟨name, user, hn, _, _, _⟩ | ⟨name, user, hn, _, _, _⟩
    · exact ⟨_, IsAllowedFromContext_of_body w env a ctx action _ _ hb⟩
    · rw [hname] at hn; cases hn
    · rw [hname] at hn; cases hn
    · rw [hname] at hn; cases hn
  · exact IsAllowedFromContext_plain_independent w env a a2 ctx ctx2 action hself hp hauth hroot
  · rw [((hid pid uid actionUID args hcall).1 hself), if_neg hne, hother]
  · exact isAllowed_ignores_id env a action id pid uid actionUID hself

/-- Witness of C21: user 1000 acting on `alice` (uid 1001) with an action that has a `SelfID`,
no `OtherID` and the `ID` `stale.id`: the authority is asked for the empty action id. -/
theorem selfID_alone_triggers_witness :
    IsAllowedFromContext .w64 envBash (authorizerAlice "1001") ctxOnAlice actionSelfOnly =
      ([.userLookup "alice", .gate (.openStat "/proc/42/stat"),
        .gate (.authorityCall (mkCallArgs (mkSubject 42 123456 1000) ""))], .done none) ∧
    (mkCallArgs (mkSubject 42 123456 1000) "").actionID = "" ∧
    (∃ msg, IsAllowedFromContext .w64 envBash (authorizerAlice "1001") ctxAnonymous
      actionSelfOnly = ([], .done (some msg))) ∧
    IsAllowedFromContext .w64 envBash (authorizerAlice "1001") ctxOnBob actionPlain
      = IsAllowedFromContext .w64 envBash (authorizerOf authorityYes) ctxAnonymous actionPlain :=
  ⟨by decide,
   (selfID_alone_triggers .w64 envBash (authorizerAlice "1001") ctxOnAlice actionSelfOnly
      { uid := 1000, pid := 42 } rfl).2.2.2.1 42 1000 1001
      (mkCallArgs (mkSubject 42 123456 1000) "") (by decide) rfl (by decide) (by decide),
   (selfID_alone_triggers .w64 envBash (authorizerAlice "1001") ctxAnonymous actionSelfOnly
      { uid := 1000, pid := 42 } rfl).1 (by decide) rfl,
   (selfID_alone_triggers .w64 envBash (authorizerOf authorityYes) ctxAnonymous actionPlain
      { uid := 1000, pid := 42 } rfl).2.1 rfl ctxOnBob (authorizerAlice "1001") rfl rfl rfl⟩

end Adsys
